import Mathlib

/-!
Verification of the gemini-image-skill repository (src/scripts/main.py and
src/upscale.py) against its design specification.

Strings are modelled as `List Char`.  File-system paths appearing in request
assembly are an abstract type `α`, with path existence given by a boolean
predicate `E` (modelling `Path.exists`).  Python exceptions are modelled with
`Except`; Python truthiness of lists, strings and bytes is "present and
nonempty".
-/

namespace GeminiSkill

/-- The characters Python treats as whitespace: `str.strip()` with no
argument and the `\s` regex class (on `str` patterns) both use exactly the
`Py_UNICODE_ISSPACE` set — the ASCII spaces, the C0 separators 1C-1F, NEL,
NBSP, and the Unicode space separators and line/paragraph separators. -/
def wsList : List Char :=
  [' ', '\t', '\n', '\x0b', '\x0c', '\r',
   '\x1c', '\x1d', '\x1e', '\x1f', '\x85', '\xa0',
   '\u1680', '\u2000', '\u2001', '\u2002', '\u2003', '\u2004', '\u2005',
   '\u2006', '\u2007', '\u2008', '\u2009', '\u200a',
   '\u2028', '\u2029', '\u202f', '\u205f', '\u3000']

/-- Python whitespace test (`str.isspace` / regex `\s` on one character). -/
def pyWS (c : Char) : Bool :=
  decide (c ∈ wsList)

/-- Lower-casing used to model `re.IGNORECASE` comparisons. -/
def lc (c : Char) : Char := c.toLower

/-- Case-insensitively strip the pattern `p` from the front of `s`; on success
return the remainder.  Models matching a literal (case-insensitive) regex
fragment. -/
def ciStrip : List Char → List Char → Option (List Char)
  | [], s => some s
  | _ :: _, [] => none
  | p :: ps, c :: cs => if lc c = lc p then ciStrip ps cs else none

/-- `str.strip()` on both ends with Python whitespace. -/
def pyStrip (s : List Char) : List Char :=
  ((s.dropWhile pyWS).reverse.dropWhile pyWS).reverse

/-! ## Prompt Composer (main.py lines 147-165)

`apply_subject_to_template` checks `'{subject}' in prompt_template` and either
calls `prompt_template.format(subject=subject_content)` or prepends the
subject.  `str.format` is modelled by `pyFormat`: literal text is copied,
`{{`/`}}` escape to a single brace, and a stray or unclosed brace raises
ValueError.  A replacement field made only of name characters (no `.`, `[`,
`!` or `:`) is a bare `arg_name`, which `str.format` resolves before
anything else: ASCII digits (including the empty auto-numbering field) are a
positional reference and raise IndexError since no positional arguments are
passed, any keyword name other than `subject` raises KeyError, and only the
bare field `{subject}` substitutes.  Everything else — a field carrying a
conversion, format spec, attribute or index (such as `{subject!r}`,
`{x:>10}` or `{a[0]}`, where Python may succeed, raise while parsing the
suffix, or raise on the name lookup, in an order the model does not
transcribe), a nested replacement inside a format spec, and a non-ASCII
name (whose positional-vs-keyword classification is Unicode-sensitive) — is
mapped to the marker `unsupported`: the model asserts nothing about the
program's behaviour there, and no statement below evaluates a template in
that region. -/

inductive FormatError where
  | valueError
  | keyError
  | indexError
  | unsupported
deriving DecidableEq

/-- The canonical placeholder token `{subject}`. -/
def subjectTok : List Char := "{subject}".toList

/-- The field name `subject`. -/
def subjectName : List Char := "subject".toList

/-- Characters of a field's `arg_name`: everything before the first `.`
(attribute), `[` (index), `!` (conversion) or `:` (format spec). -/
def fmtNameChar (d : Char) : Bool :=
  !(d = '.' || d = '[' || d = '!' || d = ':')

/-- Scanner state of `str.format`: `lit` is literal text, `sawL` / `sawR`
follow a single opening / closing brace (deciding between an escape and a
field or an error), and `fld acc` is inside a replacement field whose name
characters seen so far are `acc`, reversed. -/
inductive FmtState where
  | lit
  | sawL
  | sawR
  | fld (acc : List Char)

/-- The result when the template ends in state `st`: only literal mode is
legal; an unterminated brace or field raises ValueError. -/
def fmtEnd : FmtState → Except FormatError (List Char)
  | .lit => .ok []
  | _ => .error .valueError

/-- One character step of the `str.format` scanner, in continuation style:
`k` formats the rest of the template from a given state.  A doubled brace
emits one brace; an unescaped opening brace opens a field and a lone closing
brace raises ValueError.  Closing a field made only of name characters
dispatches on the name (see the section comment): digits or empty raise
IndexError, a keyword other than `subject` raises KeyError, the bare field
`{subject}` substitutes, and a non-ASCII name is out of the model
(`unsupported`).  A field containing `.`, `[`, `!` or `:` is entirely
`unsupported` (its suffix may be applied, or rejected while parsing, before
or after the name lookup).  An opening brace inside a field raises
ValueError (`unexpected brace in field name`) unless a `:` was already seen,
where Python instead starts a nested replacement inside the format spec
(`unsupported`). -/
def fmtStep (subj : List Char) (c : Char)
    (k : FmtState → Except FormatError (List Char)) :
    FmtState → Except FormatError (List Char)
  | .lit =>
    if c = '{' then k .sawL
    else if c = '}' then k .sawR
    else (k .lit).map (fun r => c :: r)
  | .sawL =>
    if c = '{' then (k .lit).map (fun r => '{' :: r)
    else if c = '}' then .error .indexError
    else k (.fld [c])
  | .sawR =>
    if c = '}' then (k .lit).map (fun r => '}' :: r)
    else .error .valueError
  | .fld acc =>
    if c = '}' then
      if acc.all fmtNameChar then
        if acc.all Char.isDigit then .error .indexError
        else if acc.any (fun d => 127 < d.toNat) then .error .unsupported
        else if acc.reverse = subjectName then (k .lit).map (fun r => subj ++ r)
        else .error .keyError
      else .error .unsupported
    else if c = '{' then
      if acc.any (fun d => d = ':') then .error .unsupported else .error .valueError
    else k (.fld (c :: acc))

/-- The `str.format(subject=subj)` scanner over a whole template from a
given state. -/
def pyFormatCore (subj : List Char) (s : List Char) :
    FmtState → Except FormatError (List Char) :=
  s.foldr (fmtStep subj) fmtEnd

/-- `template.format(subject=subj)`.  Conversion and format-spec suffixes
(`!`, `:`) inside a field are not distinguished from plain unknown names;
no statement below evaluates a template using them. -/
def pyFormat (tmpl subj : List Char) : Except FormatError (List Char) :=
  pyFormatCore subj tmpl .lit

/-- main.py lines 147-165: insert the subject into the template when the
token is present (Python `in`, case-sensitive substring test), otherwise
prepend `subject ++ ". " ++ template`.  An exception from `format`
propagates. -/
def apply_subject_to_template (prompt_template subject_content : List Char) :
    Except FormatError (List Char) :=
  if subjectTok <:+: prompt_template then
    pyFormat prompt_template subject_content
  else
    .ok (subject_content ++ ('.' :: ' ' :: prompt_template))

/-! ## Template Extractor (main.py lines 105-144)

`load_gemini_style_template` runs
`re.search(r'(?:##?\s*(?:Prompt\s*)?Template)[^\n]*\n+(?:.*?\n)*?\x60\x60\x60[^\n]*\n(.*?)\x60\x60\x60', text, re.IGNORECASE | re.DOTALL)`
and, on a match, strips the captured group and normalizes placeholder
spellings; otherwise it raises ValueError.  The regex engine behaviour on
this pattern is deterministic and is transcribed operationally:
`searchFrom` tries every start position left to right (leftmost match);
`matchHeaderAt` matches `##?\s*(?:Prompt\s*)?Template` (the greedy choices
are forced: no whitespace character can begin `Prompt`/`Template`, and a
position where `Prompt` matched cannot alternatively start `Template`);
`afterLine` matches `[^\n]*\n`; `findFenceAux` finds the first later line
beginning with a triple backtick (covering `\n+(?:.*?\n)*?`); `scanToTriple`
matches the lazy `(.*?)` up to the next triple backtick anywhere. -/

/-- A triple backtick, the code-fence marker. -/
def fencePat : List Char := "```".toList

/-- The literal word pattern for the optional `Prompt`. -/
def promptPat : List Char := "prompt".toList

/-- The literal word pattern for `Template`. -/
def templatePat : List Char := "template".toList

/-- Drop the maximal run of `\s` characters (greedy `\s*`). -/
def dropWSL (s : List Char) : List Char := s.dropWhile pyWS

/-- Match `\s*(?:Prompt\s*)?Template` at the start of `s`, returning the
remainder.  The greedy choices of the regex are forced here: whitespace
cannot begin `Prompt` or `Template`, and a position where `Prompt` matched
cannot alternatively start `Template`. -/
def matchHeaderTail (s : List Char) : Option (List Char) :=
  match ciStrip promptPat (dropWSL s) with
  | some r => ciStrip templatePat (dropWSL r)
  | none => ciStrip templatePat (dropWSL s)

/-- Match `##?\s*(?:Prompt\s*)?Template` at the start of `s`, returning the
remainder. -/
def matchHeaderAt (s : List Char) : Option (List Char) :=
  match s with
  | [] => none
  | c :: rest =>
    if c = '#' then
      matchHeaderTail (match rest with
        | c2 :: r2 => if c2 = '#' then r2 else rest
        | [] => rest)
    else none

/-- Match `[^\n]*` followed by one mandatory newline, returning the text
after the newline. -/
def afterLine (s : List Char) : Option (List Char) :=
  match s.dropWhile (fun c => !(c = '\n')) with
  | _ :: r => some r
  | [] => none

/-- Starting at a line boundary (`atStart = true`), return the suffix
beginning at the first line that starts with a triple backtick. -/
def findFenceAux (atStart : Bool) (s : List Char) : Option (List Char) :=
  if atStart && fencePat.isPrefixOf s then some s
  else
    match s with
    | [] => none
    | c :: r => findFenceAux (c = '\n') r

/-- Lazy scan `(.*?)` up to the next triple backtick anywhere; returns the
text consumed before it. -/
def scanToTriple (s : List Char) : Option (List Char) :=
  if fencePat.isPrefixOf s then some []
  else
    match s with
    | [] => none
    | c :: r => (scanToTriple r).map (fun t => c :: t)

/-- Attempt the whole pattern at one start position; on success return the
captured group (the raw inner text of the code block). -/
def matchAt (s : List Char) : Option (List Char) :=
  match matchHeaderAt s with
  | none => none
  | some r1 =>
    match afterLine r1 with
    | none => none
    | some r2 =>
      match findFenceAux true r2 with
      | none => none
      | some r3 =>
        match afterLine (r3.drop 3) with
        | none => none
        | some r4 => scanToTriple r4

/-- `re.search`: try every start position from the left. -/
def searchFrom (s : List Char) : Option (List Char) :=
  match s with
  | [] => matchAt []
  | c :: r =>
    match matchAt (c :: r) with
    | some g => some g
    | none => searchFrom r

/-! Placeholder normalization (main.py lines 135-140):
`re.sub(r'\[YOUR SUBJECT[^\]]*\]|\[SUBJECT\]|\{subject\}', '{subject}', t, flags=re.IGNORECASE)`.
`re.sub` walks left to right; at each position the three alternatives are
tried in order and a match is replaced by the canonical token, continuing
after the matched text. -/

/-- Case-insensitive literal opening of the first alternative. -/
def yourPat : List Char := "[your subject".toList

/-- Case-insensitive literal of the second alternative. -/
def subjPat : List Char := "[subject]".toList

/-- Match `\[YOUR SUBJECT[^\]]*\]` at the start of `s` (the greedy
`[^\]]*` cannot cross the closing bracket, so it is the maximal run of
non-bracket characters). -/
def tryYour (s : List Char) : Option (List Char) :=
  match ciStrip yourPat s with
  | some r =>
    match r.dropWhile (fun c => !(c = ']')) with
    | _ :: r2 => some r2
    | [] => none
  | none => none

/-- Fuelled substitution scan; every step consumes at least one character so
`fuel = s.length` suffices. -/
def normalizeAux : Nat → List Char → List Char
  | 0, s => s
  | f + 1, s =>
    match s with
    | [] => []
    | c :: rest =>
      match tryYour (c :: rest) with
      | some r => subjectTok ++ normalizeAux f r
      | none =>
        match ciStrip subjPat (c :: rest) with
        | some r => subjectTok ++ normalizeAux f r
        | none =>
          match ciStrip subjectTok (c :: rest) with
          | some r => subjectTok ++ normalizeAux f r
          | none => c :: normalizeAux f rest

/-- The `re.sub` call rewriting all three placeholder spellings to the
canonical `{subject}` token. -/
def normalizePlaceholders (s : List Char) : List Char := normalizeAux s.length s

/-- The spec name for the extraction failure (`ValueError` in the code). -/
inductive TemplateError where
  | templateNotFound
deriving DecidableEq

/-- main.py lines 105-144 applied to the document text: extract the first
regex match, strip it and normalize placeholders; raise when there is no
match. -/
def load_gemini_style_template (template_content : List Char) :
    Except TemplateError (List Char) :=
  match searchFrom template_content with
  | some g => .ok (normalizePlaceholders (pyStrip g))
  | none => .error .templateNotFound

/-- The raw extraction stage alone (matched group, stripped, before
placeholder normalization). -/
def extractRaw (template_content : List Char) : Option (List Char) :=
  (searchFrom template_content).map pyStrip

/-! ## Request Assembler (main.py lines 191-204 and 249-256)

`α` is the abstract type of file-system paths; `E` models `Path.exists`.
`GenPart.text` is the prompt string; `GenPart.image` is the PIL image opened
from a path. -/

inductive GenPart (α : Type) where
  | text (s : List Char)
  | image (p : α)
deriving DecidableEq

/-- The contents list and the emitted missing-file warnings of
`edit_existing_image_with_gemini` (main.py 191-204): instruction first, then
the source image, then the first 13 references that exist; a reference that
does not exist is only warned about. -/
def edit_api_contents {α : Type} (E : α → Bool) (edit_instruction : List Char)
    (source_image : α) (style_reference_images : Option (List α)) :
    List (GenPart α) × List α :=
  let base : List (GenPart α) := [.text edit_instruction, .image source_image]
  match style_reference_images with
  | some (p :: ps) =>
    (base ++ (((p :: ps).take 13).filter E).map GenPart.image,
     ((p :: ps).take 13).filter (fun q => !(E q)))
  | _ => (base, [])

/-- The two call shapes of `generate_new_image_with_gemini` (main.py
249-296): a non-streaming `generate_content` request when the reference list
is truthy, a streaming `generate_content_stream` request carrying the
aspect-ratio and image-size configuration when it is not. -/
inductive GenRequest (α : Type) where
  | nonStreaming (contents : List (GenPart α)) (warnings : List α)
  | streaming (contents : List (GenPart α)) (aspect_ratio : List Char)
      (image_size : List Char)
deriving DecidableEq

/-- main.py 248-296: build the request.  The branch is Python truthiness of
`style_reference_images` (absent or empty both select streaming); in the
non-streaming branch the first 14 references are kept and filtered by
existence. -/
def generate_api_request {α : Type} (E : α → Bool) (generation_prompt : List Char)
    (style_reference_images : Option (List α)) (output_aspect_ratio : List Char) :
    GenRequest α :=
  match style_reference_images with
  | some (p :: ps) =>
    .nonStreaming
      (.text generation_prompt ::
        ((((p :: ps).take 14).filter E).map GenPart.image))
      (((p :: ps).take 14).filter (fun q => !(E q)))
  | _ => .streaming [.text generation_prompt] output_aspect_ratio ("1K".toList)

/-! ## Response Drain (main.py lines 214-222, 266-274 and 292-311)

A response part carries `inline_data` (whose `data` is the image bytes) and
`text`.  The Python conditions are truthiness tests: `part.inline_data and
part.inline_data.data` needs both present and the bytes nonempty;
`part.text` needs a nonempty string.  The first component of a drain result
is the list of byte strings written to the destination file (in order) and
the second is the list of echoed text parts. -/

/-- `types.Blob`: the `data` field of `inline_data`. -/
structure InlineBlob where
  data : Option (List Nat)
deriving DecidableEq

/-- A part of a response candidate content. -/
structure RespPart where
  inline_data : Option InlineBlob
  text : Option (List Char)
deriving DecidableEq

/-- A candidate content: its `parts`. -/
structure RespContent where
  parts : Option (List RespPart)
deriving DecidableEq

/-- A response candidate. -/
structure RespCandidate where
  content : Option RespContent
deriving DecidableEq

/-- A non-streaming response: its `candidates`. -/
structure GenResponse where
  candidates : Option (List RespCandidate)
deriving DecidableEq

/-- One chunk of a streaming response. -/
structure StreamChunk where
  candidates : Option (List RespCandidate)
deriving DecidableEq

/-- The failure taxonomy of the spec for response consumption, together with
the crash the stream loop can actually raise.  `noImageInResponse` is the
condition named by the spec; no drain below ever produces it. -/
inductive DrainError where
  | indexError
  | noImageInResponse
deriving DecidableEq

/-- The part loop shared by main.py 215-222 and 267-274: write the first
part whose `inline_data.data` is truthy and return; echo truthy text
parts. -/
def drainParts : List RespPart → List (List Nat) × List (List Char)
  | [] => ([], [])
  | p :: ps =>
    match p.inline_data with
    | some ⟨some (b :: bs)⟩ => ([b :: bs], [])
    | _ =>
      let r := drainParts ps
      match p.text with
      | some (c :: cs) => (r.1, (c :: cs) :: r.2)
      | _ => r

/-- main.py 214 / 266: guard `response.candidates and
response.candidates[0].content and response.candidates[0].content.parts`
(list truthiness: present and nonempty), then run the part loop. -/
def drainResponse (resp : GenResponse) : List (List Nat) × List (List Char) :=
  match resp.candidates with
  | some (c0 :: _) =>
    match c0.content with
    | some ct =>
      match ct.parts with
      | some (p :: ps) => drainParts (p :: ps)
      | _ => ([], [])
    | none => ([], [])
  | _ => ([], [])

/-- main.py 292-311: the streaming loop.  A chunk whose `candidates`,
`content` or `parts` field `is None` is skipped; otherwise `parts[0]` is
inspected (raising IndexError on an empty list, as does `candidates[0]`);
the first chunk whose head part has truthy bytes is written and the loop
returns; a truthy head text is echoed. -/
def drainStream : List StreamChunk → Except DrainError (List (List Nat) × List (List Char))
  | [] => .ok ([], [])
  | ch :: rest =>
    match ch.candidates with
    | none => drainStream rest
    | some [] => .error .indexError
    | some (c0 :: _) =>
      match c0.content with
      | none => drainStream rest
      | some ct =>
        match ct.parts with
        | none => drainStream rest
        | some [] => .error .indexError
        | some (p :: _) =>
          match p.inline_data with
          | some ⟨some (b :: bs)⟩ => .ok ([b :: bs], [])
          | _ =>
            match p.text with
            | some (c :: cs) =>
              match drainStream rest with
              | .ok r => .ok (r.1, (c :: cs) :: r.2)
              | .error e => .error e
            | _ => drainStream rest

/-! ## Upscale helper (src/upscale.py)

The script reads the image at `input_path`, computes
`new_size = (width * scale, height * scale)` with `scale` the integer third
argument (2 when absent), resizes, and saves to `output_path`.  PIL's
`Image.resize` rejects a target width or height below 1 with ValueError
(`"height and width must be > 0"` in `_imaging`), so for a non-positive
scale on a real image the script raises and performs no write; otherwise
the one write is recorded as a `(path, width, height)` triple.  The input
file is only opened for reading.  Parsing of the argv string into an
integer is not modelled: the scale argument is taken already parsed. -/

structure UpscaleRun where
  writes : List (List Char × Int × Int)
deriving DecidableEq

inductive ResizeError where
  | valueError
deriving DecidableEq

/-- src/upscale.py lines 10-27 for an input image of size `w x h`. -/
def upscale_run (input_path output_path : List Char) (scaleArg : Option Int)
    (w h : Nat) : Except ResizeError UpscaleRun :=
  let scale : Int := scaleArg.getD 2
  let new_w : Int := (w : Int) * scale
  let new_h : Int := (h : Int) * scale
  if 1 ≤ new_w ∧ 1 ≤ new_h then
    .ok { writes := [(output_path, new_w, new_h)] }
  else
    .error .valueError

/-! ## Observations on responses, and facts about the drains -/

/-- Python truthiness of `part.inline_data and part.inline_data.data`: the
part carries a nonempty byte string. -/
def partHasImage (p : RespPart) : Bool :=
  match p.inline_data with
  | some ⟨some (_ :: _)⟩ => true
  | _ => false

/-- The byte payload of a part (empty when absent). -/
def partBytes (p : RespPart) : List Nat :=
  match p.inline_data with
  | some ⟨some bs⟩ => bs
  | _ => []

/-- The truthy text of a part, when present. -/
def partText? (p : RespPart) : Option (List Char) :=
  match p.text with
  | some (c :: cs) => some (c :: cs)
  | _ => none

/-- The parts the non-streaming drain iterates over: those of the first
candidate, when the truthiness guard of main.py 214 / 266 passes. -/
def respParts (resp : GenResponse) : List RespPart :=
  match resp.candidates with
  | some (c0 :: _) =>
    match c0.content with
    | some ct =>
      match ct.parts with
      | some (p :: ps) => p :: ps
      | _ => []
    | none => []
  | _ => []

/-- The one part the streaming loop inspects in a chunk (`parts[0]`), when
all structural fields are present. -/
def chunkHead? (ch : StreamChunk) : Option RespPart :=
  match ch.candidates with
  | some (c0 :: _) =>
    match c0.content with
    | some ct =>
      match ct.parts with
      | some (p :: _) => some p
      | _ => none
    | none => none
  | _ => none

/-- All parts of the first candidate of a chunk (what "anywhere in the
response" ranges over for a stream). -/
def chunkParts (ch : StreamChunk) : List RespPart :=
  match ch.candidates with
  | some (c0 :: _) =>
    match c0.content with
    | some ct =>
      match ct.parts with
      | some l => l
      | none => []
    | none => []
  | _ => []

/-- Every part appearing in a chunk stream, in order. -/
def streamAllParts (chunks : List StreamChunk) : List RespPart :=
  (chunks.map chunkParts).flatten

/-! ## Predicates used to state the claims

`BraceFree` and `occCount` describe `str.format` inputs; the remaining
predicates spell out, as plain decompositions, what the template regex
recognizes: a `#` or `##` marker (anywhere in the text), optional
whitespace, an optional word `Prompt`, the word `Template`
(case-insensitively), the remainder of that line, then after any number of
lines a fenced code block with a closing fence; the captured text is the
block body before the closing fence.  The `Opt` variants make the marker
optional, which is the claim's reading of the header. -/

/-- Text with no brace characters: scanned literally by `str.format`. -/
def BraceFree (s : List Char) : Prop := ∀ c ∈ s, c ≠ '{' ∧ c ≠ '}'

instance (s : List Char) : Decidable (BraceFree s) :=
  List.decidableBAll _ s

/-- The number of positions at which `pat` occurs in `s` as a substring. -/
def occCount (pat s : List Char) : Nat :=
  ((List.range (s.length + 1)).filter (fun i => pat.isPrefixOf (s.drop i))).length

/-- A run of regex whitespace. -/
def WSRun (l : List Char) : Prop := ∀ c ∈ l, pyWS c = true

instance (l : List Char) : Decidable (WSRun l) :=
  List.decidableBAll _ l

/-- Text free of newlines (matched by `[^\n]*`). -/
def NoNL (l : List Char) : Prop := '\n' ∉ l

instance (l : List Char) : Decidable (NoNL l) :=
  inferInstanceAs (Decidable ('\n' ∉ l))

/-- Text that is a whole number of lines: empty or ending in a newline. -/
def LinesOnly (l : List Char) : Prop := l = [] ∨ ∃ l', l = l' ++ ['\n']

/-- The optional `Prompt\s*` group. -/
def PromptOptP (popt : List Char) : Prop :=
  popt = [] ∨ ∃ pw gap2, popt = pw ++ gap2 ∧ pw.map lc = promptPat ∧ WSRun gap2

/-- The fragment matched by `##?\s*(?:Prompt\s*)?Template`. -/
def HeaderShape (h : List Char) : Prop :=
  ∃ marks gap popt tmpl : List Char,
    (marks = ['#'] ∨ marks = ['#', '#']) ∧ WSRun gap ∧ PromptOptP popt ∧
    tmpl.map lc = templatePat ∧ h = marks ++ gap ++ popt ++ tmpl

/-- The fragment matched by `[^\n]*\n+(?:.*?\n)*?` followed by the fence
line, the captured group `inner` and a closing fence. -/
def RegexTail (rest inner : List Char) : Prop :=
  ∃ lineRest body lead flr tail : List Char,
    NoNL lineRest ∧ LinesOnly lead ∧ NoNL flr ∧
    rest = lineRest ++ '\n' :: body ∧
    body = lead ++ fencePat ++ flr ++ '\n' :: (inner ++ fencePat ++ tail)

/-- `RegexTail` with the choices the regex engine actually makes pinned:
the code block is the first one after the header — no line of `lead`
beginning at a line boundary starts with a fence, and the closing fence is
the earliest triple backtick after the fence line, so no triple backtick
starts inside `inner`. -/
def FirstRegexTail (rest inner : List Char) : Prop :=
  ∃ lineRest body lead flr tail : List Char,
    NoNL lineRest ∧ LinesOnly lead ∧ NoNL flr ∧
    rest = lineRest ++ '\n' :: body ∧
    body = lead ++ fencePat ++ flr ++ '\n' :: (inner ++ fencePat ++ tail) ∧
    (∀ l1 l2, lead = l1 ++ l2 → l2 ≠ [] →
      (l1 = [] ∨ ∃ l1x, l1 = l1x ++ ['\n']) →
      ¬ fencePat <+: (l2 ++ (fencePat ++ (flr ++ '\n' :: (inner ++ fencePat ++ tail))))) ∧
    (∀ t1 t2, inner = t1 ++ t2 → t2 ≠ [] → ¬ fencePat <+: (t2 ++ (fencePat ++ tail)))

/-- A full match of the template pattern starting exactly here. -/
def MatchShape (s : List Char) : Prop :=
  ∃ h rest inner, s = h ++ rest ∧ HeaderShape h ∧ RegexTail rest inner

/-- The document contains a marker+code-block pair somewhere. -/
def SpecPair (doc : List Char) : Prop :=
  ∃ pre s, doc = pre ++ s ∧ MatchShape s

/-- The claim's reading of the header: the `#`/`##` marker is optional. -/
def HeaderShapeOpt (h : List Char) : Prop :=
  ∃ marks gap popt tmpl : List Char,
    (marks = [] ∨ marks = ['#'] ∨ marks = ['#', '#']) ∧ WSRun gap ∧ PromptOptP popt ∧
    tmpl.map lc = templatePat ∧ h = marks ++ gap ++ popt ++ tmpl

/-- A full match in the claim's marker-optional reading. -/
def MatchShapeOpt (s : List Char) : Prop :=
  ∃ h rest inner, s = h ++ rest ∧ HeaderShapeOpt h ∧ RegexTail rest inner

/-- The document contains a marker-optional header+code-block pair. -/
def SpecPairOpt (doc : List Char) : Prop :=
  ∃ pre s, doc = pre ++ s ∧ MatchShapeOpt s

theorem drainParts_writes (ps : List RespPart) :
    (drainParts ps).1 =
      (match ps.find? partHasImage with
       | some p => [partBytes p]
       | none => []) := by
  induction ps with
  | nil => rfl
  | cons p ps ih =>
    rcases p with ⟨pid, ptxt⟩
    rcases pid with _ | ⟨bd⟩
    · have hfalse : partHasImage ⟨none, ptxt⟩ = false := rfl
      rw [List.find?_cons_of_neg _ (by simp [hfalse])]
      rcases ptxt with _ | ⟨_ | ⟨c, cs⟩⟩ <;> simpa [drainParts] using ih
    · rcases bd with _ | ⟨_ | ⟨b, bs⟩⟩
      · have hfalse : partHasImage ⟨some ⟨none⟩, ptxt⟩ = false := rfl
        rw [List.find?_cons_of_neg _ (by simp [hfalse])]
        rcases ptxt with _ | ⟨_ | ⟨c, cs⟩⟩ <;> simpa [drainParts] using ih
      · have hfalse : partHasImage ⟨some ⟨some []⟩, ptxt⟩ = false := rfl
        rw [List.find?_cons_of_neg _ (by simp [hfalse])]
        rcases ptxt with _ | ⟨_ | ⟨c, cs⟩⟩ <;> simpa [drainParts] using ih
      · rw [List.find?_cons_of_pos _ (by rfl)]
        rfl

theorem drainParts_no_image (ps : List RespPart)
    (h : ∀ p ∈ ps, partHasImage p = false) :
    drainParts ps = ([], ps.filterMap partText?) := by
  induction ps with
  | nil => rfl
  | cons p ps ih =>
    have hp := h p (List.mem_cons_self _ _)
    have hrest := fun q hq => h q (List.mem_cons_of_mem _ hq)
    rcases p with ⟨pid, ptxt⟩
    rcases pid with _ | ⟨bd⟩
    · rcases ptxt with _ | ⟨_ | ⟨c, cs⟩⟩ <;>
        simp [drainParts, partText?, ih hrest]
    · rcases bd with _ | ⟨_ | ⟨b, bs⟩⟩
      · rcases ptxt with _ | ⟨_ | ⟨c, cs⟩⟩ <;>
          simp [drainParts, partText?, ih hrest]
      · rcases ptxt with _ | ⟨_ | ⟨c, cs⟩⟩ <;>
          simp [drainParts, partText?, ih hrest]
      · exact absurd hp (by simp [partHasImage])

theorem drainResponse_eq_drainParts (resp : GenResponse) :
    drainResponse resp = drainParts (respParts resp) := by
  rcases resp with ⟨cands⟩
  rcases cands with _ | ⟨_ | ⟨c0, cs⟩⟩
  · rfl
  · rfl
  · rcases c0 with ⟨ct⟩
    rcases ct with _ | ⟨pl⟩
    · rfl
    · rcases pl with ⟨_ | ⟨_ | ⟨p, ps⟩⟩⟩ <;> rfl

theorem drainStream_writes (chunks : List StreamChunk) (w : List (List Nat))
    (ts : List (List Char)) (h : drainStream chunks = .ok (w, ts)) :
    w = (match (chunks.filterMap chunkHead?).find? partHasImage with
         | some p => [partBytes p]
         | none => []) := by
  induction chunks generalizing w ts with
  | nil =>
    simp only [drainStream, Except.ok.injEq, Prod.mk.injEq] at h
    simp [← h.1]
  | cons ch rest ih =>
    rcases ch with ⟨cands⟩
    rcases cands with _ | ⟨_ | ⟨c0, cs⟩⟩
    · simpa [chunkHead?, List.filterMap_cons] using ih w ts (by simpa [drainStream] using h)
    · simp [drainStream] at h
    · rcases c0 with ⟨ct⟩
      rcases ct with _ | ⟨pl⟩
      · simpa [chunkHead?, List.filterMap_cons] using ih w ts (by simpa [drainStream] using h)
      · rcases pl with ⟨_ | ⟨_ | ⟨p, ps⟩⟩⟩
        · simpa [chunkHead?, List.filterMap_cons] using ih w ts (by simpa [drainStream] using h)
        · simp [drainStream] at h
        · rcases p with ⟨pid, ptxt⟩
          rcases pid with _ | ⟨bd⟩
          · have hhead : partHasImage ⟨none, ptxt⟩ = false := rfl
            rcases ptxt with _ | ⟨_ | ⟨c, cs'⟩⟩
            · simp only [chunkHead?, List.filterMap_cons, List.find?,
                hhead]
              exact ih w ts (by simpa [drainStream] using h)
            · simp only [chunkHead?, List.filterMap_cons, List.find?,
                hhead]
              exact ih w ts (by simpa [drainStream] using h)
            · simp only [drainStream] at h
              rcases hrec : drainStream rest with e | r
              · rw [hrec] at h
                simp at h
              · rw [hrec] at h
                simp only [Except.ok.injEq, Prod.mk.injEq] at h
                obtain ⟨hw, -⟩ := h
                simp only [chunkHead?, List.filterMap_cons, List.find?, hhead]
                rw [← hw]
                exact ih r.1 r.2 (by rw [hrec])
          · rcases bd with _ | ⟨_ | ⟨b, bs⟩⟩
            · have hhead : partHasImage ⟨some ⟨none⟩, ptxt⟩ = false := rfl
              rcases ptxt with _ | ⟨_ | ⟨c, cs'⟩⟩
              · simp only [chunkHead?, List.filterMap_cons, List.find?, hhead]
                exact ih w ts (by simpa [drainStream] using h)
              · simp only [chunkHead?, List.filterMap_cons, List.find?, hhead]
                exact ih w ts (by simpa [drainStream] using h)
              · simp only [drainStream] at h
                rcases hrec : drainStream rest with e | r
                · rw [hrec] at h
                  simp at h
                · rw [hrec] at h
                  simp only [Except.ok.injEq, Prod.mk.injEq] at h
                  obtain ⟨hw, -⟩ := h
                  simp only [chunkHead?, List.filterMap_cons, List.find?, hhead]
                  rw [← hw]
                  exact ih r.1 r.2 (by rw [hrec])
            · have hhead : partHasImage ⟨some ⟨some []⟩, ptxt⟩ = false := rfl
              rcases ptxt with _ | ⟨_ | ⟨c, cs'⟩⟩
              · simp only [chunkHead?, List.filterMap_cons, List.find?, hhead]
                exact ih w ts (by simpa [drainStream] using h)
              · simp only [chunkHead?, List.filterMap_cons, List.find?, hhead]
                exact ih w ts (by simpa [drainStream] using h)
              · simp only [drainStream] at h
                rcases hrec : drainStream rest with e | r
                · rw [hrec] at h
                  simp at h
                · rw [hrec] at h
                  simp only [Except.ok.injEq, Prod.mk.injEq] at h
                  obtain ⟨hw, -⟩ := h
                  simp only [chunkHead?, List.filterMap_cons, List.find?, hhead]
                  rw [← hw]
                  exact ih r.1 r.2 (by rw [hrec])
            · simp only [drainStream] at h
              simp only [Except.ok.injEq, Prod.mk.injEq] at h
              obtain ⟨hw, -⟩ := h
              simp only [chunkHead?, List.filterMap_cons]
              rw [List.find?_cons_of_pos _ (by rfl)]
              rw [← hw]
              rfl

theorem drainStream_never_no_image (chunks : List StreamChunk) :
    drainStream chunks ≠ .error .noImageInResponse := by
  induction chunks with
  | nil => exact fun h => nomatch h
  | cons ch rest ih =>
    rcases ch with ⟨cands⟩
    rcases cands with _ | ⟨_ | ⟨c0, cs⟩⟩
    · simpa [drainStream] using ih
    · exact fun h => nomatch h
    · rcases c0 with ⟨ct⟩
      rcases ct with _ | ⟨pl⟩
      · simpa [drainStream] using ih
      · rcases pl with ⟨_ | ⟨_ | ⟨p, ps⟩⟩⟩
        · simpa [drainStream] using ih
        · exact fun h => nomatch h
        · rcases p with ⟨pid, ptxt⟩
          rcases pid with _ | ⟨bd⟩
          · rcases ptxt with _ | ⟨_ | ⟨c, cs'⟩⟩
            · simpa [drainStream] using ih
            · simpa [drainStream] using ih
            · intro h
              simp only [drainStream] at h
              rcases hrec : drainStream rest with e | r
              · rw [hrec] at h
                cases h
                exact ih hrec
              · rw [hrec] at h
                exact nomatch h
          · rcases bd with _ | ⟨_ | ⟨b, bs⟩⟩
            · rcases ptxt with _ | ⟨_ | ⟨c, cs'⟩⟩
              · simpa [drainStream] using ih
              · simpa [drainStream] using ih
              · intro h
                simp only [drainStream] at h
                rcases hrec : drainStream rest with e | r
                · rw [hrec] at h
                  cases h
                  exact ih hrec
                · rw [hrec] at h
                  exact nomatch h
            · rcases ptxt with _ | ⟨_ | ⟨c, cs'⟩⟩
              · simpa [drainStream] using ih
              · simpa [drainStream] using ih
              · intro h
                simp only [drainStream] at h
                rcases hrec : drainStream rest with e | r
                · rw [hrec] at h
                  cases h
                  exact ih hrec
                · rw [hrec] at h
                  exact nomatch h
            · exact fun h => nomatch h

/-! ## Claims about the Response Drain (C2, C8) -/

/-- C2 is false on the code: for a stream that yields only textual parts,
the loop simply ends — no file is written, but nothing is reported either;
the result is a normal return, not the `NoImageInResponse` failure the claim
requires. -/
theorem C2_counterexample :
    drainStream [⟨some [⟨some ⟨some [⟨none, some ("no image".toList)⟩]⟩⟩]⟩] =
      .ok ([], [("no image".toList)]) ∧
    drainStream [⟨some [⟨some ⟨some [⟨none, some ("no image".toList)⟩]⟩⟩]⟩] ≠
      .error .noImageInResponse := by
  exact ⟨rfl, fun h => nomatch h⟩

/-- C2 amended: when no binary part is found, no file is written — but the
condition is silently ignored rather than reported: the non-streaming drain
returns normally after echoing the textual parts, and the streaming drain
never produces a `NoImageInResponse` failure on any input (the only error it
can raise is the IndexError crash on an empty `candidates`/`parts` list). -/
theorem C2_silent_no_image :
    (∀ resp : GenResponse, (∀ p ∈ respParts resp, partHasImage p = false) →
      drainResponse resp = ([], (respParts resp).filterMap partText?)) ∧
    (∀ chunks : List StreamChunk, drainStream chunks ≠ .error .noImageInResponse) ∧
    (∀ chunks w ts, drainStream chunks = .ok (w, ts) →
      (∀ p ∈ chunks.filterMap chunkHead?, partHasImage p = false) → w = []) := by
  refine ⟨?_, drainStream_never_no_image, ?_⟩
  · intro resp h
    rw [drainResponse_eq_drainParts]
    exact drainParts_no_image _ h
  · intro chunks w ts h hall
    rw [drainStream_writes chunks w ts h,
      List.find?_eq_none.mpr (fun p hp => by simp [hall p hp])]

/-- Witness for C2 amended: a one-chunk text-only stream and a text-only
composite response. -/
theorem C2_silent_no_image_witness :
    drainResponse ⟨some [⟨some ⟨some [⟨none, some ("hi".toList)⟩]⟩⟩]⟩ =
      ([], [("hi".toList)]) ∧
    drainStream [⟨some [⟨some ⟨some [⟨none, some ("hi".toList)⟩]⟩⟩]⟩] ≠
      .error .noImageInResponse := by
  constructor
  · exact C2_silent_no_image.1 ⟨some [⟨some ⟨some [⟨none, some ("hi".toList)⟩]⟩⟩]⟩
      (by decide)
  · exact C2_silent_no_image.2.1 [⟨some [⟨some ⟨some [⟨none, some ("hi".toList)⟩]⟩⟩]⟩]

/-- C8 is false on the code for chunk streams: the streaming loop inspects
only `parts[0]` of each chunk, so a binary part sitting after a textual part
in the same chunk is never written.  Here the response contains a binary
part with bytes `[1, 2]` (it is the first binary part anywhere in the
response), yet the drain writes nothing. -/
theorem C8_counterexample :
    (streamAllParts
        [⟨some [⟨some ⟨some [⟨none, some ("t".toList)⟩,
          ⟨some ⟨some [1, 2]⟩, none⟩]⟩⟩]⟩]).find? partHasImage =
      some ⟨some ⟨some [1, 2]⟩, none⟩ ∧
    partBytes ⟨some ⟨some [1, 2]⟩, none⟩ = [1, 2] ∧
    drainStream
        [⟨some [⟨some ⟨some [⟨none, some ("t".toList)⟩,
          ⟨some ⟨some [1, 2]⟩, none⟩]⟩⟩]⟩] =
      .ok ([], [("t".toList)]) := by
  exact ⟨rfl, rfl, rfl⟩

/-- C8 amended: the non-streaming drain writes verbatim the bytes of the
first binary part among the first candidate's parts and stops; the streaming
drain writes verbatim the bytes of the head part of the first chunk whose
head part is binary and stops (later parts of a chunk are never examined);
in both shapes at most one artifact is ever written. -/
theorem C8_first_image_write :
    (∀ resp : GenResponse, (drainResponse resp).1 =
      (match (respParts resp).find? partHasImage with
       | some p => [partBytes p]
       | none => [])) ∧
    (∀ chunks w ts, drainStream chunks = .ok (w, ts) →
      w = (match (chunks.filterMap chunkHead?).find? partHasImage with
           | some p => [partBytes p]
           | none => [])) ∧
    (∀ resp : GenResponse, (drainResponse resp).1.length ≤ 1) ∧
    (∀ chunks w ts, drainStream chunks = .ok (w, ts) → w.length ≤ 1) := by
  have h1 : ∀ resp : GenResponse, (drainResponse resp).1 =
      (match (respParts resp).find? partHasImage with
       | some p => [partBytes p]
       | none => []) := by
    intro resp
    rw [drainResponse_eq_drainParts]
    exact drainParts_writes _
  refine ⟨h1, fun chunks w ts h => drainStream_writes chunks w ts h, ?_, ?_⟩
  · intro resp
    rw [h1 resp]
    rcases (respParts resp).find? partHasImage with _ | p <;> simp
  · intro chunks w ts h
    rw [drainStream_writes chunks w ts h]
    rcases (chunks.filterMap chunkHead?).find? partHasImage with _ | p <;> simp

/-- Witness for C8 amended: a composite response whose second part is the
image, and a one-chunk stream whose head part is the image with bytes `[5]`. -/
theorem C8_first_image_write_witness :
    (drainResponse ⟨some [⟨some ⟨some [⟨none, some ("hi".toList)⟩,
        ⟨some ⟨some [7]⟩, none⟩]⟩⟩]⟩).1 = [[7]] ∧
    ([[5]] : List (List Nat)) =
      (match (([⟨some [⟨some ⟨some [⟨some ⟨some [5]⟩, none⟩]⟩⟩]⟩] :
          List StreamChunk).filterMap chunkHead?).find? partHasImage with
       | some p => [partBytes p]
       | none => []) ∧
    ([[5]] : List (List Nat)).length ≤ 1 := by
  refine ⟨?_, ?_, ?_⟩
  · exact (C8_first_image_write.1
      ⟨some [⟨some ⟨some [⟨none, some ("hi".toList)⟩, ⟨some ⟨some [7]⟩, none⟩]⟩⟩]⟩).trans
      (by rfl)
  · exact C8_first_image_write.2.1
      [⟨some [⟨some ⟨some [⟨some ⟨some [5]⟩, none⟩]⟩⟩]⟩] [[5]] [] rfl
  · exact C8_first_image_write.2.2.2
      [⟨some [⟨some ⟨some [⟨some ⟨some [5]⟩, none⟩]⟩⟩]⟩] [[5]] [] rfl

/-! ## Claims about the Request Assembler (C1, C3, C7) and the upscale
helper (C10) -/

/-- C1: the Request Assembler includes at most 13 references when a primary
(edit) image is present and at most 14 otherwise — for every reference
list, existing or not — and never drops the primary image; the candidate
references are the first 13 (edit) or 14 (generate) supplied (a prefix of
the caller list, truncated only at the tail) and the included ones are
exactly the existing ones among them, in order; for a list of 20 existing
references edit mode includes the primary plus exactly the first 13 while
generate mode includes exactly the first 14. -/
theorem C1_reference_budget {α : Type} (E : α → Bool) (instr prompt aspect : List Char)
    (src p0 : α) (ps : List α) :
    (∀ refs : Option (List α), ∃ tail,
        (edit_api_contents E instr src refs).1 =
          GenPart.text instr :: GenPart.image src :: tail ∧ tail.length ≤ 13) ∧
    (∀ q qs,
        generate_api_request E prompt (some (q :: qs)) aspect =
          .nonStreaming
            (GenPart.text prompt :: (((q :: qs).take 14).filter E).map GenPart.image)
            (((q :: qs).take 14).filter (fun x => !(E x))) ∧
        ((((q :: qs).take 14).filter E).map GenPart.image).length ≤ 14) ∧
    (generate_api_request E prompt none aspect =
        .streaming [GenPart.text prompt] aspect ("1K".toList)) ∧
    (generate_api_request E prompt (some []) aspect =
        .streaming [GenPart.text prompt] aspect ("1K".toList)) ∧
    ((∀ q ∈ p0 :: ps, E q = true) →
        (edit_api_contents E instr src (some (p0 :: ps))).1 =
          GenPart.text instr :: GenPart.image src ::
            ((p0 :: ps).take 13).map GenPart.image ∧
        generate_api_request E prompt (some (p0 :: ps)) aspect =
          .nonStreaming (GenPart.text prompt ::
            ((p0 :: ps).take 14).map GenPart.image) []) ∧
    ((p0 :: ps).take 13 <+: p0 :: ps) ∧ ((p0 :: ps).take 14 <+: p0 :: ps) ∧
    ((p0 :: ps).length = 20 →
        ((p0 :: ps).take 13).length = 13 ∧ ((p0 :: ps).take 14).length = 14) := by
  refine ⟨?_, ?_, rfl, rfl, ?_, List.take_prefix _ _, List.take_prefix _ _, ?_⟩
  · intro refs
    match refs with
    | none => exact ⟨[], rfl, by simp⟩
    | some [] => exact ⟨[], rfl, by simp⟩
    | some (q :: qs) =>
      refine ⟨(((q :: qs).take 13).filter E).map GenPart.image, rfl, ?_⟩
      calc ((((q :: qs).take 13).filter E).map GenPart.image).length
          = (((q :: qs).take 13).filter E).length := List.length_map _ _
        _ ≤ ((q :: qs).take 13).length := List.length_filter_le _ _
        _ ≤ 13 := by simp [List.length_take]
  · intro q qs
    refine ⟨rfl, ?_⟩
    calc ((((q :: qs).take 14).filter E).map GenPart.image).length
        = (((q :: qs).take 14).filter E).length := List.length_map _ _
      _ ≤ ((q :: qs).take 14).length := List.length_filter_le _ _
      _ ≤ 14 := by simp [List.length_take]
  · intro hex
    have hfil : ((p0 :: ps).take 13).filter E = (p0 :: ps).take 13 :=
      List.filter_eq_self.mpr fun q hq => hex q (List.take_subset _ _ hq)
    have hfil14 : ((p0 :: ps).take 14).filter E = (p0 :: ps).take 14 :=
      List.filter_eq_self.mpr fun q hq => hex q (List.take_subset _ _ hq)
    have hwarn : ((p0 :: ps).take 14).filter (fun q => !(E q)) = [] := by
      rw [List.filter_eq_nil_iff]
      intro q hq
      simp [hex q (List.take_subset _ _ hq)]
    constructor
    · show GenPart.text instr :: GenPart.image src ::
          (((p0 :: ps).take 13).filter E).map GenPart.image = _
      rw [hfil]
    · show GenRequest.nonStreaming _ _ = _
      rw [hfil14, hwarn]
  · intro h20
    have hps : ps.length = 19 := by simpa using h20
    constructor <;> simp [List.length_take, hps]

/-- Witness for C1 at a concrete 20-element reference list with every path
existing. -/
theorem C1_reference_budget_witness :
    (edit_api_contents (fun _ : Nat => true) ("e".toList) 100
        (some (0 :: [1,2,3,4,5,6,7,8,9,10,11,12,13,14,15,16,17,18,19]))).1 =
      GenPart.text ("e".toList) :: GenPart.image 100 ::
        (((0 :: [1,2,3,4,5,6,7,8,9,10,11,12,13,14,15,16,17,18,19]).take 13).map
          GenPart.image) ∧
    ((0 :: [1,2,3,4,5,6,7,8,9,10,11,12,13,14,15,16,17,18,19]).take 13).length = 13 ∧
    ((0 :: [1,2,3,4,5,6,7,8,9,10,11,12,13,14,15,16,17,18,19]).take 14).length = 14 := by
  have h := C1_reference_budget (fun _ : Nat => true) ("e".toList) ("g".toList)
    ("1:1".toList) 100 0 [1,2,3,4,5,6,7,8,9,10,11,12,13,14,15,16,17,18,19]
  have hex : ∀ q ∈ (0 :: [1,2,3,4,5,6,7,8,9,10,11,12,13,14,15,16,17,18,19] : List Nat),
      (fun _ : Nat => true) q = true := fun q _ => rfl
  have h20 : (0 :: [1,2,3,4,5,6,7,8,9,10,11,12,13,14,15,16,17,18,19] : List Nat).length = 20 := by
    decide
  exact ⟨(h.2.2.2.2.1 hex).1, (h.2.2.2.2.2.2.2 h20).1, (h.2.2.2.2.2.2.2 h20).2⟩

/-- C3 is false on the code: with one supplied reference whose path does not
exist (`E` constantly false), every reference is dropped by validation, yet
`generate_new_image_with_gemini` still takes the truthiness branch and
issues the non-streaming call shape with no image at all — the claim
requires the streaming shape here. -/
theorem C3_counterexample :
    generate_api_request (fun _ : Nat => false) ("p".toList) (some [0]) ("1:1".toList) =
      .nonStreaming [GenPart.text ("p".toList)] [0] ∧
    (∀ c a i, generate_api_request (fun _ : Nat => false) ("p".toList) (some [0])
        ("1:1".toList) ≠ GenRequest.streaming c a i) := by
  exact ⟨by decide, fun c a i h => nomatch h⟩

/-- C3 amended: the call shape is decided by Python truthiness of the
supplied reference list alone, before any existence validation: the
non-streaming shape is selected exactly when the supplied list is nonempty,
and the streaming shape with the aspect-ratio configuration exactly when the
list is absent or empty — independently of the existence predicate. -/
theorem C3_mode_selection {α : Type} (E : α → Bool) (prompt aspect : List Char)
    (refs : Option (List α)) :
    ((∃ c w, generate_api_request E prompt refs aspect = .nonStreaming c w) ↔
      (∃ p ps, refs = some (p :: ps))) ∧
    ((∃ c, generate_api_request E prompt refs aspect =
        .streaming c aspect ("1K".toList)) ↔
      (refs = none ∨ refs = some [])) := by
  match refs with
  | none =>
    constructor
    · constructor
      · rintro ⟨c, w, h⟩
        exact absurd h (fun h => nomatch h)
      · rintro ⟨p, ps, h⟩
        exact absurd h (fun h => nomatch h)
    · constructor
      · intro _
        exact Or.inl rfl
      · intro _
        exact ⟨[GenPart.text prompt], rfl⟩
  | some [] =>
    constructor
    · constructor
      · rintro ⟨c, w, h⟩
        exact absurd h (fun h => nomatch h)
      · rintro ⟨p, ps, h⟩
        exact absurd h (fun h => nomatch h)
    · constructor
      · intro _
        exact Or.inr rfl
      · intro _
        exact ⟨[GenPart.text prompt], rfl⟩
  | some (p :: ps) =>
    constructor
    · constructor
      · intro _
        exact ⟨p, ps, rfl⟩
      · intro _
        exact ⟨_, _, rfl⟩
    · constructor
      · rintro ⟨c, h⟩
        exact absurd h (fun h => nomatch h)
      · rintro (h | h) <;> exact absurd h (fun h => nomatch h)

/-- Witness for C3 amended: a nonempty reference list selects the
non-streaming shape, an absent list selects the streaming shape. -/
theorem C3_mode_selection_witness :
    (∃ c w, generate_api_request (fun _ : Nat => true) ("p".toList) (some [7])
        ("1:1".toList) = .nonStreaming c w) ∧
    (∃ c, generate_api_request (fun _ : Nat => true) ("p".toList) none
        ("1:1".toList) = .streaming c ("1:1".toList) ("1K".toList)) := by
  refine ⟨?_, ?_⟩
  · exact (C3_mode_selection (fun _ : Nat => true) ("p".toList) ("1:1".toList)
      (some [7])).1.mpr ⟨7, [], rfl⟩
  · exact (C3_mode_selection (fun _ : Nat => true) ("p".toList) ("1:1".toList)
      none).2.mpr (Or.inl rfl)

/-- C7: a missing reference path is skipped (never included), it produces a
warning, it does not make the assembler fail (the contents are still the
instruction, the primary image and the surviving references), the surviving
references keep their caller-supplied order (a sublist of the original
list), and when exactly one of the considered references is missing the
assembled request has exactly one fewer reference. -/
theorem C7_missing_reference {α : Type} (E : α → Bool) (instr prompt aspect : List Char)
    (src : α) (rs : List α) :
    ((edit_api_contents E instr src (some rs)).1 =
        GenPart.text instr :: GenPart.image src ::
          ((rs.take 13).filter E).map GenPart.image ∧
      (edit_api_contents E instr src (some rs)).2 =
        (rs.take 13).filter (fun q => !(E q))) ∧
    ((rs.take 13).filter E).Sublist rs ∧
    (∀ a p b, rs.take 13 = a ++ p :: b → E p = false →
      (∀ q, q ∈ a ++ b → E q = true) →
      (rs.take 13).filter E = a ++ b ∧
      ((rs.take 13).filter E).length = (rs.take 13).length - 1) ∧
    (∀ q qs, rs = q :: qs →
      generate_api_request E prompt (some rs) aspect =
        .nonStreaming (GenPart.text prompt ::
          ((rs.take 14).filter E).map GenPart.image)
          ((rs.take 14).filter (fun x => !(E x)))) := by
  refine ⟨?_, (List.filter_sublist _).trans (List.take_sublist _ _), ?_, ?_⟩
  · match rs with
    | [] => exact ⟨rfl, rfl⟩
    | q :: qs => exact ⟨rfl, rfl⟩
  · intro a p b hsplit hmiss hrest
    have h1 : (rs.take 13).filter E = a ++ b := by
      rw [hsplit, List.filter_append, List.filter_cons_of_neg (by simp [hmiss]),
        List.filter_eq_self.mpr (fun q hq => hrest q (List.mem_append_left _ hq)),
        List.filter_eq_self.mpr (fun q hq => hrest q (List.mem_append_right _ hq))]
    refine ⟨h1, ?_⟩
    rw [h1, hsplit]
    simp [List.length_append]
  · intro q qs hq
    subst hq
    rfl

/-- Witness for C7 at the concrete list `[1, 5, 2]` where only the path `5`
is missing: the assembled reference set is `[1] ++ [2]`, one fewer than the
three considered. -/
theorem C7_missing_reference_witness :
    (([1,5,2] : List Nat).take 13).filter (fun q => decide (q ≠ 5)) = [1] ++ [2] ∧
    ((([1,5,2] : List Nat).take 13).filter (fun q => decide (q ≠ 5))).length =
      (([1,5,2] : List Nat).take 13).length - 1 := by
  have h := C7_missing_reference (fun q : Nat => decide (q ≠ 5)) ("e".toList)
    ("g".toList) ("1:1".toList) 9 [1,5,2]
  exact h.2.2.1 [1] 5 [2] (by decide) (by decide) (by decide)

/-- C10 is false on the code as universally stated: when the output path
equals the input path (`python upscale.py a.png a.png`), the script writes
the upscaled image over the input file, so the input file is modified. -/
theorem C10_counterexample :
    upscale_run ("a.png".toList) ("a.png".toList) none 3 5 =
      .ok ⟨[(("a.png".toList), 6, 10)]⟩ ∧
    ("a.png".toList) ∈
      (([(("a.png".toList), 6, 10)] : List (List Char × Int × Int)).map
        Prod.fst) := by
  exact ⟨rfl, by decide⟩

/-- C10 amended: for every integer scale factor `k` (2 when the argument is
absent), provided the output path differs from the input path: whenever the
resize is accepted (both target dimensions at least 1 — for a real image any
positive `k`), the script performs exactly one file write, at the output
path, with dimensions exactly `(k*w, k*h)`, and never writes to the input
path; when a target dimension is below 1 (any non-positive `k` on a real
image) PIL's resize raises ValueError and nothing is written. -/
theorem C10_upscale_dims (inp out : List Char) (w h : Nat) (k : Int)
    (hne : out ≠ inp) :
    (∀ run, upscale_run inp out (some k) w h = .ok run →
        run.writes = [(out, (w : Int) * k, (h : Int) * k)] ∧
        inp ∉ run.writes.map Prod.fst) ∧
    (1 ≤ (w : Int) * k → 1 ≤ (h : Int) * k →
      upscale_run inp out (some k) w h = .ok ⟨[(out, (w : Int) * k, (h : Int) * k)]⟩) ∧
    (¬ (1 ≤ (w : Int) * k ∧ 1 ≤ (h : Int) * k) →
      upscale_run inp out (some k) w h = .error .valueError) ∧
    (∀ run, upscale_run inp out none w h = .ok run →
        run.writes = [(out, (w : Int) * 2, (h : Int) * 2)] ∧
        inp ∉ run.writes.map Prod.fst) := by
  have hok : ∀ (s : Option Int) (run : UpscaleRun),
      upscale_run inp out s w h = .ok run →
      run.writes = [(out, (w : Int) * (s.getD 2), (h : Int) * (s.getD 2))] ∧
      inp ∉ run.writes.map Prod.fst := by
    intro s run hrun
    have hrun' : (if 1 ≤ (w : Int) * (s.getD 2) ∧ 1 ≤ (h : Int) * (s.getD 2) then
        (Except.ok ⟨[(out, (w : Int) * (s.getD 2), (h : Int) * (s.getD 2))]⟩ :
          Except ResizeError UpscaleRun)
        else .error .valueError) = .ok run := hrun
    by_cases hc : 1 ≤ (w : Int) * (s.getD 2) ∧ 1 ≤ (h : Int) * (s.getD 2)
    · rw [if_pos hc] at hrun'
      have hw : run = ⟨[(out, (w : Int) * (s.getD 2), (h : Int) * (s.getD 2))]⟩ := by
        simpa using hrun'.symm
      subst hw
      refine ⟨rfl, ?_⟩
      intro hmem
      simp only [List.map_cons, List.map_nil, List.mem_singleton] at hmem
      exact hne hmem.symm
    · rw [if_neg hc] at hrun'
      exact Except.noConfusion hrun'
  refine ⟨hok (some k), ?_, ?_, hok none⟩
  · intro hw hh
    show (if 1 ≤ (w : Int) * k ∧ 1 ≤ (h : Int) * k then
        (Except.ok ⟨[(out, (w : Int) * k, (h : Int) * k)]⟩ :
          Except ResizeError UpscaleRun)
        else .error .valueError) = _
    rw [if_pos ⟨hw, hh⟩]
  · intro hc
    show (if 1 ≤ (w : Int) * k ∧ 1 ≤ (h : Int) * k then
        (Except.ok ⟨[(out, (w : Int) * k, (h : Int) * k)]⟩ :
          Except ResizeError UpscaleRun)
        else .error .valueError) = _
    rw [if_neg hc]

/-- Witness for C10 amended at `w = 4, h = 5` with distinct paths: `k = 3`
succeeds with one write of dimensions `(12, 15)`, `k = -1` is rejected by
the resize with no write, and the theorem's ok-clauses apply to the `k = 3`
run. -/
theorem C10_upscale_dims_witness :
    upscale_run ("in.png".toList) ("out.png".toList) (some 3) 4 5 =
      .ok ⟨[(("out.png".toList), (4 : Int) * 3, (5 : Int) * 3)]⟩ ∧
    upscale_run ("in.png".toList) ("out.png".toList) (some (-1)) 4 5 =
      .error .valueError ∧
    (⟨[(("out.png".toList), (4 : Int) * 3, (5 : Int) * 3)]⟩ : UpscaleRun).writes =
      [(("out.png".toList), (4 : Int) * 3, (5 : Int) * 3)] ∧
    ("in.png".toList) ∉
      ((⟨[(("out.png".toList), (4 : Int) * 3, (5 : Int) * 3)]⟩ : UpscaleRun).writes.map
        Prod.fst) := by
  have h3 := C10_upscale_dims ("in.png".toList) ("out.png".toList) 4 5 3 (by decide)
  have hm1 := C10_upscale_dims ("in.png".toList) ("out.png".toList) 4 5 (-1) (by decide)
  have hok := h3.2.1 (by decide) (by decide)
  have hrun := h3.1 ⟨[(("out.png".toList), (4 : Int) * 3, (5 : Int) * 3)]⟩ hok
  exact ⟨hok, hm1.2.2.1 (by decide), hrun.1, hrun.2⟩

/-! ## Facts about the Prompt Composer, and claims C6 and C9 -/

theorem intercalate_one {α : Type} (sep a : List α) :
    List.intercalate sep [a] = a := by
  simp [List.intercalate]

theorem intercalate_two {α : Type} (sep a b : List α) (l : List (List α)) :
    List.intercalate sep (a :: b :: l) = a ++ sep ++ List.intercalate sep (b :: l) := by
  simp [List.intercalate, List.intersperse, List.append_assoc]

theorem pyFormatCore_append (subj x y : List Char) (st : FmtState) :
    pyFormatCore subj (x ++ y) st =
      (x.foldr (fmtStep subj) (pyFormatCore subj y)) st := by
  simp [pyFormatCore, List.foldr_append]

theorem foldr_lit (subj : List Char) :
    ∀ (pre : List Char) (k : FmtState → Except FormatError (List Char)),
      BraceFree pre →
      (pre.foldr (fmtStep subj) k) FmtState.lit =
        (k FmtState.lit).map (fun r => pre ++ r) := by
  intro pre
  induction pre with
  | nil =>
    intro k _
    cases hk : k FmtState.lit <;> simp [Except.map, hk]
  | cons c pre ih =>
    intro k hbf
    have hc := hbf c (List.mem_cons_self _ _)
    have hrest : BraceFree pre := fun d hd => hbf d (List.mem_cons_of_mem _ hd)
    show fmtStep subj c (pre.foldr (fmtStep subj) k) FmtState.lit = _
    rw [show fmtStep subj c (pre.foldr (fmtStep subj) k) FmtState.lit =
        ((pre.foldr (fmtStep subj) k) FmtState.lit).map (fun r => c :: r) from by
      simp [fmtStep, hc.1, hc.2]]
    rw [ih k hrest]
    cases hk : k FmtState.lit <;> simp [Except.map, hk]

theorem foldr_token (subj : List Char)
    (k : FmtState → Except FormatError (List Char)) :
    (subjectTok.foldr (fmtStep subj) k) FmtState.lit =
      (k FmtState.lit).map (fun r => subj ++ r) := rfl

theorem foldr_field (subj : List Char) :
    ∀ (fld : List Char) (k : FmtState → Except FormatError (List Char))
      (acc : List Char), BraceFree fld →
      (fld.foldr (fmtStep subj) k) (FmtState.fld acc) =
        k (FmtState.fld (fld.reverse ++ acc)) := by
  intro fld
  induction fld with
  | nil => intro k acc _; rfl
  | cons c fld ih =>
    intro k acc hbf
    have hc := hbf c (List.mem_cons_self _ _)
    have hrest : BraceFree fld := fun d hd => hbf d (List.mem_cons_of_mem _ hd)
    show fmtStep subj c (fld.foldr (fmtStep subj) k) (FmtState.fld acc) = _
    rw [show fmtStep subj c (fld.foldr (fmtStep subj) k) (FmtState.fld acc) =
        (fld.foldr (fmtStep subj) k) (FmtState.fld (c :: acc)) from by
      simp [fmtStep, hc.1, hc.2]]
    rw [ih k (c :: acc) hrest]
    simp

theorem pyFormatCore_intercalate (subj : List Char) :
    ∀ segs : List (List Char), segs ≠ [] → (∀ s ∈ segs, BraceFree s) →
      pyFormatCore subj (List.intercalate subjectTok segs) FmtState.lit =
        .ok (List.intercalate subj segs) := by
  intro segs
  induction segs with
  | nil => intro h _; exact absurd rfl h
  | cons a rest ih =>
    intro _ hbf
    have ha := hbf a (List.mem_cons_self _ _)
    have hrest : ∀ s ∈ rest, BraceFree s := fun s hs => hbf s (List.mem_cons_of_mem _ hs)
    match rest with
    | [] =>
      rw [intercalate_one, intercalate_one]
      have : pyFormatCore subj a FmtState.lit =
          (a.foldr (fmtStep subj) (pyFormatCore subj [])) FmtState.lit := by
        simp [pyFormatCore]
      rw [show pyFormatCore subj a = a.foldr (fmtStep subj) fmtEnd from rfl]
      rw [foldr_lit subj a fmtEnd ha]
      simp [fmtEnd, Except.map]
    | b :: l =>
      rw [intercalate_two, intercalate_two]
      have hne : (b :: l : List (List Char)) ≠ [] := by simp
      have h1 : pyFormatCore subj
          (a ++ (subjectTok ++ List.intercalate subjectTok (b :: l))) FmtState.lit =
          (pyFormatCore subj (subjectTok ++ List.intercalate subjectTok (b :: l))
            FmtState.lit).map (fun r => a ++ r) := by
        rw [pyFormatCore_append]
        exact foldr_lit subj a _ ha
      have h2 : pyFormatCore subj
          (subjectTok ++ List.intercalate subjectTok (b :: l)) FmtState.lit =
          (pyFormatCore subj (List.intercalate subjectTok (b :: l))
            FmtState.lit).map (fun r => subj ++ r) := by
        rw [pyFormatCore_append]
        exact foldr_token subj _
      rw [List.append_assoc, h1, h2, ih hne hrest]
      simp [Except.map, List.append_assoc]

/-- C6 is false on the code as universally stated: for the template
`{subject} {subject}` (the token occurs twice) and subject `A`, `format`
substitutes at both positions, so the output `A A` contains the subject
twice, not exactly once. -/
theorem C6_counterexample :
    apply_subject_to_template ("{subject} {subject}".toList) ("A".toList) =
      .ok ("A A".toList) ∧
    occCount ("A".toList) ("A A".toList) = 2 := by
  constructor
  · rfl
  · decide

/-- C6 amended: if the template is brace-free text with canonical tokens
inserted, the output is that text with the subject substituted at every
token position (in particular, for a single token between brace-free
segments, the subject appears exactly at the token's position); if the
template lacks the token, the output is the subject, then `". "`, then the
template verbatim. -/
theorem C6_substitution :
    (∀ (segs : List (List Char)) (subj : List Char), 2 ≤ segs.length →
      (∀ s ∈ segs, BraceFree s) →
      apply_subject_to_template (List.intercalate subjectTok segs) subj =
        .ok (List.intercalate subj segs)) ∧
    (∀ pre post subj : List Char, BraceFree pre → BraceFree post →
      apply_subject_to_template (pre ++ subjectTok ++ post) subj =
        .ok (pre ++ subj ++ post)) ∧
    (∀ tmpl subj : List Char, ¬ subjectTok <:+: tmpl →
      apply_subject_to_template tmpl subj = .ok (subj ++ ('.' :: ' ' :: tmpl))) := by
  have hmain : ∀ (segs : List (List Char)) (subj : List Char), 2 ≤ segs.length →
      (∀ s ∈ segs, BraceFree s) →
      apply_subject_to_template (List.intercalate subjectTok segs) subj =
        .ok (List.intercalate subj segs) := by
    intro segs subj hlen hbf
    match segs, hlen with
    | a :: b :: l, _ =>
      have hinf : subjectTok <:+: List.intercalate subjectTok (a :: b :: l) := by
        rw [intercalate_two]
        exact ⟨a, List.intercalate subjectTok (b :: l), by simp [List.append_assoc]⟩
      rw [apply_subject_to_template, if_pos hinf]
      exact pyFormatCore_intercalate subj (a :: b :: l) (by simp) hbf
  refine ⟨hmain, ?_, ?_⟩
  · intro pre post subj hpre hpost
    have h := hmain [pre, post] subj (by simp) (by
      intro s hs
      rcases List.mem_cons.mp hs with rfl | hs2
      · exact hpre
      · rcases List.mem_cons.mp hs2 with rfl | hs3
        · exact hpost
        · exact absurd hs3 (List.not_mem_nil s))
    rw [intercalate_two, intercalate_two, intercalate_one, intercalate_one] at h
    exact h
  · intro tmpl subj hnot
    rw [apply_subject_to_template, if_neg hnot]

/-- Witness for C6 amended: template `a{subject}b` with subject `S` yields
`aSb`; token-free template `xy` yields `S. xy`. -/
theorem C6_substitution_witness :
    apply_subject_to_template ("a".toList ++ subjectTok ++ "b".toList) ("S".toList) =
      .ok ("a".toList ++ "S".toList ++ "b".toList) ∧
    apply_subject_to_template ("xy".toList) ("S".toList) =
      .ok ("S".toList ++ ('.' :: ' ' :: "xy".toList)) := by
  constructor
  · exact C6_substitution.2.1 ("a".toList) ("b".toList) ("S".toList)
      (by decide) (by decide)
  · exact C6_substitution.2.2 ("xy".toList) ("S".toList) (by decide)

theorem field_marker_error (subj : List Char) :
    ∀ (fld rest : List Char) (k : FmtState → Except FormatError (List Char)),
      BraceFree fld →
      (∀ c ∈ fld, fmtNameChar c = true ∧ c.toNat ≤ 127) →
      fld ≠ subjectName →
      ∃ e, (('{' :: (fld ++ '}' :: rest)).foldr (fmtStep subj) k)
          FmtState.lit = .error e := by
  intro fld rest k hbf hpl hne
  show ∃ e, fmtStep subj '{' ((fld ++ '}' :: rest).foldr (fmtStep subj) k)
      FmtState.lit = .error e
  rw [show fmtStep subj '{' ((fld ++ '}' :: rest).foldr (fmtStep subj) k)
      FmtState.lit = ((fld ++ '}' :: rest).foldr (fmtStep subj) k)
      FmtState.sawL from by simp [fmtStep]]
  match fld, hne, hpl with
  | [], hne, hpl =>
    exact ⟨.indexError, by simp [fmtStep]⟩
  | c :: fld, hne, hpl =>
    have hc := hbf c (List.mem_cons_self _ _)
    have hrest : BraceFree fld := fun d hd => hbf d (List.mem_cons_of_mem _ hd)
    show ∃ e, fmtStep subj c ((fld ++ '}' :: rest).foldr (fmtStep subj) k)
        FmtState.sawL = .error e
    rw [show fmtStep subj c ((fld ++ '}' :: rest).foldr (fmtStep subj) k)
        FmtState.sawL = ((fld ++ '}' :: rest).foldr (fmtStep subj) k)
        (FmtState.fld [c]) from by simp [fmtStep, hc.1, hc.2]]
    rw [List.foldr_append, foldr_field subj fld _ [c] hrest]
    have hacc : ((fld.reverse ++ [c] : List Char)).reverse = c :: fld := by simp
    have hmemiff : ∀ d : Char, d ∈ (fld.reverse ++ [c] : List Char) ↔ d ∈ c :: fld := by
      intro d
      simp [List.mem_reverse, or_comm]
    have hname : ((fld.reverse ++ [c] : List Char)).all fmtNameChar = true := by
      rw [List.all_eq_true]
      intro d hd
      exact (hpl d ((hmemiff d).mp hd)).1
    have hstep : fmtStep subj '}' (rest.foldr (fmtStep subj) k)
        (FmtState.fld (fld.reverse ++ [c])) =
        (if (fld.reverse ++ [c] : List Char).all fmtNameChar then
          (if (fld.reverse ++ [c] : List Char).all Char.isDigit then
             Except.error FormatError.indexError
           else if (fld.reverse ++ [c] : List Char).any (fun d => 127 < d.toNat) then
             Except.error FormatError.unsupported
           else if (fld.reverse ++ [c] : List Char).reverse = subjectName then
             ((rest.foldr (fmtStep subj) k) FmtState.lit).map (fun r => subj ++ r)
           else Except.error FormatError.keyError)
         else Except.error FormatError.unsupported) := rfl
    by_cases hdig : ((fld.reverse ++ [c] : List Char)).all Char.isDigit = true
    · refine ⟨FormatError.indexError, ?_⟩
      show fmtStep subj '}' (rest.foldr (fmtStep subj) k)
          (FmtState.fld (fld.reverse ++ [c])) = _
      rw [hstep, if_pos hname, if_pos hdig]
    · refine ⟨FormatError.keyError, ?_⟩
      have hany : ((fld.reverse ++ [c] : List Char)).any (fun d => 127 < d.toNat) = false := by
        rw [List.any_eq_false]
        intro d hd
        simp only [decide_eq_true_eq, Nat.not_lt]
        exact (hpl d ((hmemiff d).mp hd)).2
      show fmtStep subj '}' (rest.foldr (fmtStep subj) k)
          (FmtState.fld (fld.reverse ++ [c])) = _
      rw [hstep, if_pos hname, if_neg hdig, if_neg (by simp [hany])]
      rw [show ((fld.reverse ++ [c] : List Char)).reverse = c :: fld from hacc,
        if_neg hne]

/-- C9: a template that contains the canonical token together with another
simple replacement field — a marker `\x7b name \x7d` whose name is brace-free,
built from plain ASCII name characters (no `.`, `[`, `!` or `:`, so no
attribute, index, conversion or format-spec suffix), and is not `subject` —
makes the Prompt Composer fail loudly with an exception (KeyError for an
unknown keyword name, IndexError for an empty or numeric positional name;
the spec's `MalformedTemplate`) instead of producing output — whichever
side of the token the foreign marker is on. -/
theorem C9_malformed_template (subj pre mid fld rest : List Char)
    (hpre : BraceFree pre) (hmid : BraceFree mid) (hfld : BraceFree fld)
    (hpl : ∀ c ∈ fld, fmtNameChar c = true ∧ c.toNat ≤ 127)
    (hne : fld ≠ subjectName) :
    (∃ e, apply_subject_to_template
        (pre ++ subjectTok ++ mid ++ '{' :: (fld ++ '}' :: rest)) subj = .error e) ∧
    (∃ e, apply_subject_to_template
        (pre ++ '{' :: (fld ++ '}' :: (mid ++ subjectTok ++ rest))) subj = .error e) := by
  constructor
  · have hinf : subjectTok <:+:
        pre ++ subjectTok ++ mid ++ '{' :: (fld ++ '}' :: rest) :=
      ⟨pre, mid ++ '{' :: (fld ++ '}' :: rest), by simp [List.append_assoc]⟩
    rw [apply_subject_to_template, if_pos hinf]
    have h1 : pyFormatCore subj
        (pre ++ (subjectTok ++ (mid ++ '{' :: (fld ++ '}' :: rest)))) FmtState.lit =
        (pyFormatCore subj (subjectTok ++ (mid ++ '{' :: (fld ++ '}' :: rest)))
          FmtState.lit).map (fun r => pre ++ r) := by
      rw [pyFormatCore_append]
      exact foldr_lit subj pre _ hpre
    have h2 : pyFormatCore subj
        (subjectTok ++ (mid ++ '{' :: (fld ++ '}' :: rest))) FmtState.lit =
        (pyFormatCore subj (mid ++ '{' :: (fld ++ '}' :: rest))
          FmtState.lit).map (fun r => subj ++ r) := by
      rw [pyFormatCore_append]
      exact foldr_token subj _
    have h3 : pyFormatCore subj
        (mid ++ '{' :: (fld ++ '}' :: rest)) FmtState.lit =
        (pyFormatCore subj ('{' :: (fld ++ '}' :: rest))
          FmtState.lit).map (fun r => mid ++ r) := by
      rw [pyFormatCore_append]
      exact foldr_lit subj mid _ hmid
    obtain ⟨e, he⟩ := field_marker_error subj fld rest fmtEnd hfld hpl hne
    have h4 : pyFormatCore subj ('{' :: (fld ++ '}' :: rest)) FmtState.lit =
        .error e := he
    refine ⟨e, ?_⟩
    show pyFormatCore subj
      (pre ++ subjectTok ++ mid ++ '{' :: (fld ++ '}' :: rest)) FmtState.lit = _
    rw [show (pre ++ subjectTok ++ mid ++ '{' :: (fld ++ '}' :: rest) : List Char) =
      pre ++ (subjectTok ++ (mid ++ '{' :: (fld ++ '}' :: rest))) from by
        simp [List.append_assoc]]
    rw [h1, h2, h3, h4]
    rfl
  · have hinf : subjectTok <:+:
        pre ++ '{' :: (fld ++ '}' :: (mid ++ subjectTok ++ rest)) :=
      ⟨pre ++ '{' :: (fld ++ '}' :: mid), rest, by simp [List.append_assoc]⟩
    rw [apply_subject_to_template, if_pos hinf]
    have h1 : pyFormatCore subj
        (pre ++ '{' :: (fld ++ '}' :: (mid ++ subjectTok ++ rest))) FmtState.lit =
        (pyFormatCore subj ('{' :: (fld ++ '}' :: (mid ++ subjectTok ++ rest)))
          FmtState.lit).map (fun r => pre ++ r) := by
      rw [pyFormatCore_append]
      exact foldr_lit subj pre _ hpre
    obtain ⟨e, he⟩ := field_marker_error subj fld (mid ++ subjectTok ++ rest)
      fmtEnd hfld hpl hne
    have h2 : pyFormatCore subj
        ('{' :: (fld ++ '}' :: (mid ++ subjectTok ++ rest))) FmtState.lit =
        .error e := he
    refine ⟨e, ?_⟩
    show pyFormatCore subj
      (pre ++ '{' :: (fld ++ '}' :: (mid ++ subjectTok ++ rest))) FmtState.lit = _
    rw [h1, h2]
    rfl

/-- Witness for C9 at the concrete template `{subject}{foo}` and subject
`S`. -/
theorem C9_malformed_template_witness :
    ∃ e, apply_subject_to_template
        ([] ++ subjectTok ++ [] ++ '{' :: ("foo".toList ++ '}' :: [])) ("S".toList) =
      .error e := by
  exact (C9_malformed_template ("S".toList) [] [] ("foo".toList) []
    (by decide) (by decide) (by decide) (by decide) (by decide)).1

/-! ## Facts about placeholder normalization, and claim C5 -/

theorem ciStrip_intro : ∀ (p t r : List Char), t.map lc = p.map lc →
    ciStrip p (t ++ r) = some r := by
  intro p
  induction p with
  | nil =>
    intro t r h
    have ht : t = [] := by simpa using h
    subst ht
    rfl
  | cons p ps ih =>
    intro t r h
    match t, h with
    | c :: t, h =>
      simp only [List.map_cons, List.cons.injEq] at h
      show ciStrip (p :: ps) (c :: (t ++ r)) = some r
      rw [ciStrip, if_pos h.1]
      exact ih t r h.2

theorem ciStrip_sound : ∀ (p s r : List Char), ciStrip p s = some r →
    ∃ t, s = t ++ r ∧ t.map lc = p.map lc := by
  intro p
  induction p with
  | nil =>
    intro s r h
    simp only [ciStrip, Option.some.injEq] at h
    exact ⟨[], by simp [h]⟩
  | cons p ps ih =>
    intro s r h
    match s with
    | [] => exact absurd h (by simp [ciStrip])
    | c :: cs =>
      rw [ciStrip] at h
      by_cases hc : lc c = lc p
      · rw [if_pos hc] at h
        obtain ⟨t, ht, hmap⟩ := ih cs r h
        exact ⟨c :: t, by simp [ht], by simp [hmap, hc]⟩
      · rw [if_neg hc] at h
        exact absurd h (by simp)

theorem ciStrip_length : ∀ (p s r : List Char), ciStrip p s = some r →
    p.length + r.length = s.length := by
  intro p s r h
  obtain ⟨t, ht, hmap⟩ := ciStrip_sound p s r h
  have : t.length = p.length := by
    have := congrArg List.length hmap
    simpa using this
  simp [ht, this]

theorem ciStrip_none_head (p0 c : Char) (ps cs : List Char) (h : lc c ≠ lc p0) :
    ciStrip (p0 :: ps) (c :: cs) = none := by
  rw [ciStrip, if_neg h]

theorem tryYour_length (s r : List Char) (h : tryYour s = some r) :
    r.length < s.length := by
  rw [tryYour] at h
  rcases h1 : ciStrip yourPat s with _ | r1 <;> rw [h1] at h
  · exact absurd h (by simp)
  · have hlen1 := ciStrip_length yourPat s r1 h1
    have h' : (match r1.dropWhile (fun c => !(c = ']')) with
        | _ :: r2 => some r2
        | [] => none) = some r := h
    rcases h2 : r1.dropWhile (fun c => !(c = ']')) with _ | ⟨d, r2⟩ <;> rw [h2] at h'
    · exact absurd h' (by simp)
    · have hr : r = r2 := by simpa using h'.symm
      have hrlen : r.length = r2.length := by rw [hr]
      have hsub : (r1.dropWhile (fun c => !(c = ']'))).length ≤ r1.length :=
        (List.dropWhile_sublist _).length_le
      rw [h2] at hsub
      simp only [List.length_cons] at hsub
      have hy : yourPat.length = 13 := by decide
      omega

theorem normalizeAux_cons (f : Nat) (c : Char) (rest : List Char) :
    normalizeAux (f + 1) (c :: rest) =
      (match tryYour (c :: rest) with
       | some r => subjectTok ++ normalizeAux f r
       | none =>
         match ciStrip subjPat (c :: rest) with
         | some r => subjectTok ++ normalizeAux f r
         | none =>
           match ciStrip subjectTok (c :: rest) with
           | some r => subjectTok ++ normalizeAux f r
           | none => c :: normalizeAux f rest) := rfl

theorem normalizeAux_fuel : ∀ (f g : Nat) (s : List Char),
    s.length ≤ f → s.length ≤ g → normalizeAux f s = normalizeAux g s := by
  intro f
  induction f with
  | zero =>
    intro g s hf _
    have hs : s = [] := List.length_eq_zero.mp (Nat.le_zero.mp hf)
    subst hs
    cases g <;> rfl
  | succ f ih =>
    intro g s hf hg
    match s with
    | [] => cases g <;> rfl
    | c :: rest =>
      match g, hg with
      | g + 1, hg =>
        have hf' : rest.length + 1 ≤ f + 1 := by simpa using hf
        have hg' : rest.length + 1 ≤ g + 1 := by simpa using hg
        rw [normalizeAux_cons, normalizeAux_cons]
        rcases h1 : tryYour (c :: rest) with _ | r
        · rcases h2 : ciStrip subjPat (c :: rest) with _ | r
          · rcases h3 : ciStrip subjectTok (c :: rest) with _ | r
            · show c :: normalizeAux f rest = c :: normalizeAux g rest
              rw [ih g rest (by omega) (by omega)]
            · show subjectTok ++ normalizeAux f r = subjectTok ++ normalizeAux g r
              have hlen := ciStrip_length _ _ _ h3
              rw [show subjectTok.length = 9 from by decide,
                List.length_cons] at hlen
              rw [ih g r (by omega) (by omega)]
          · show subjectTok ++ normalizeAux f r = subjectTok ++ normalizeAux g r
            have hlen := ciStrip_length _ _ _ h2
            rw [show subjPat.length = 9 from by decide,
              List.length_cons] at hlen
            rw [ih g r (by omega) (by omega)]
        · show subjectTok ++ normalizeAux f r = subjectTok ++ normalizeAux g r
          have hlen := tryYour_length _ _ h1
          rw [List.length_cons] at hlen
          rw [ih g r (by omega) (by omega)]

theorem lc_yourPat : yourPat.map lc = yourPat := by decide

theorem lc_subjPat : subjPat.map lc = subjPat := by decide

theorem lc_subjectTok : subjectTok.map lc = subjectTok := by decide

theorem tryYour_intro (pre mid rest : List Char) (hpre : pre.map lc = yourPat)
    (hmid : ']' ∉ mid) :
    tryYour (pre ++ (mid ++ ']' :: rest)) = some rest := by
  rw [tryYour, ciStrip_intro yourPat pre (mid ++ ']' :: rest)
    (by rw [hpre, lc_yourPat])]
  show (match (mid ++ ']' :: rest).dropWhile (fun c => !(c = ']')) with
    | _ :: r2 => some r2
    | [] => none) = some rest
  rw [List.dropWhile_append_of_pos (by
    intro a ha
    simp only [Bool.not_eq_true']
    exact decide_eq_false (fun hEq => hmid (hEq ▸ ha)))]
  rw [List.dropWhile_cons_of_neg (by simp)]

/-- Normalization step when the text starts with the `[YOUR SUBJECT...]`
spelling. -/
theorem normalize_your (pre mid rest : List Char) (hpre : pre.map lc = yourPat)
    (hmid : ']' ∉ mid) :
    normalizePlaceholders (pre ++ mid ++ ']' :: rest) =
      subjectTok ++ normalizePlaceholders rest := by
  have hs : pre ++ mid ++ ']' :: rest = pre ++ (mid ++ ']' :: rest) := by
    simp [List.append_assoc]
  have hpre_ne : pre ≠ [] := by
    intro h
    rw [h] at hpre
    exact absurd hpre.symm (by decide)
  match pre, hpre_ne with
  | p0 :: pre', _ =>
    rw [hs]
    show normalizeAux ((p0 :: (pre' ++ (mid ++ ']' :: rest))).length)
      (p0 :: (pre' ++ (mid ++ ']' :: rest))) = _
    have htry := tryYour_intro (p0 :: pre') mid rest hpre hmid
    rw [List.cons_append] at htry
    rw [List.length_cons, normalizeAux_cons, htry]
    show subjectTok ++ normalizeAux (pre' ++ (mid ++ ']' :: rest)).length rest = _
    rw [normalizeAux_fuel (pre' ++ (mid ++ ']' :: rest)).length rest.length rest
      (by simp; omega) (le_refl _)]
    rfl

theorem normalize_ctx : ∀ (a s : List Char),
    (∀ c ∈ a, lc c ≠ '[' ∧ lc c ≠ '{') →
    normalizePlaceholders (a ++ s) = a ++ normalizePlaceholders s := by
  intro a
  induction a with
  | nil => intro s _; rfl
  | cons c a ih =>
    intro s hc
    have hhead := hc c (List.mem_cons_self _ _)
    have hrest : ∀ d ∈ a, lc d ≠ '[' ∧ lc d ≠ '{' :=
      fun d hd => hc d (List.mem_cons_of_mem _ hd)
    show normalizeAux ((c :: (a ++ s)).length) (c :: (a ++ s)) = _
    rw [List.length_cons, normalizeAux_cons]
    have h1 : tryYour (c :: (a ++ s)) = none := by
      rw [tryYour, show yourPat = '[' :: "your subject".toList from rfl,
        ciStrip_none_head _ _ _ _ (by simpa using hhead.1)]
    have h2 : ciStrip subjPat (c :: (a ++ s)) = none := by
      rw [show subjPat = '[' :: "subject]".toList from rfl]
      exact ciStrip_none_head _ _ _ _ (by simpa using hhead.1)
    have h3 : ciStrip subjectTok (c :: (a ++ s)) = none := by
      rw [show subjectTok = '{' :: "subject\x7d".toList from rfl]
      exact ciStrip_none_head _ _ _ _ (by simpa using hhead.2)
    rw [h1, h2, h3]
    show c :: normalizeAux (a ++ s).length (a ++ s) = _
    rw [show normalizeAux (a ++ s).length (a ++ s) =
      normalizePlaceholders (a ++ s) from rfl, ih s hrest, List.cons_append]

/-- Case analysis fact: a string whose lower-casing is `[subject]` cannot
start the `[YOUR SUBJECT` alternative. -/
theorem tryYour_none_subj (t rest : List Char) (h : t.map lc = subjPat) :
    tryYour (t ++ rest) = none := by
  match t with
  | [] =>
    have hl := congrArg List.length h
    rw [show subjPat.length = 9 from by decide] at hl
    simp at hl
  | [c0] =>
    have hl := congrArg List.length h
    rw [show subjPat.length = 9 from by decide] at hl
    simp at hl
  | c0 :: c1 :: t' =>
    simp only [show subjPat = '[' :: 's' :: "ubject]".toList from rfl,
      List.map_cons, List.cons.injEq] at h
    rw [tryYour, show yourPat = '[' :: 'y' :: "our subject".toList from rfl]
    show (match ciStrip ('[' :: 'y' :: ("our subject".toList))
        (c0 :: c1 :: (t' ++ rest)) with
      | some r =>
        match r.dropWhile (fun c => !(c = ']')) with
        | _ :: r2 => some r2
        | [] => none
      | none => none) = none
    rw [ciStrip, if_pos (by rw [h.1]; decide), ciStrip_none_head _ _ _ _
      (by rw [h.2.1]; decide)]

/-- C5: each of the three placeholder spellings, case-insensitively, is
rewritten to the canonical token `{subject}` — at the front of the text with
the remainder normalized in turn, across any left context free of `[` and
`{`, and in particular a text that is exactly one spelling maps to exactly
the canonical token. -/
theorem C5_placeholder_normalization :
    (∀ pre mid rest : List Char, pre.map lc = yourPat → ']' ∉ mid →
      normalizePlaceholders (pre ++ mid ++ ']' :: rest) =
        subjectTok ++ normalizePlaceholders rest) ∧
    (∀ t rest : List Char, t.map lc = subjPat →
      normalizePlaceholders (t ++ rest) = subjectTok ++ normalizePlaceholders rest) ∧
    (∀ t rest : List Char, t.map lc = subjectTok →
      normalizePlaceholders (t ++ rest) = subjectTok ++ normalizePlaceholders rest) ∧
    (∀ a s : List Char, (∀ c ∈ a, lc c ≠ '[' ∧ lc c ≠ '{') →
      normalizePlaceholders (a ++ s) = a ++ normalizePlaceholders s) ∧
    (∀ pre mid : List Char, pre.map lc = yourPat → ']' ∉ mid →
      normalizePlaceholders (pre ++ mid ++ [']']) = subjectTok) ∧
    (∀ t : List Char, t.map lc = subjPat → normalizePlaceholders t = subjectTok) ∧
    (∀ t : List Char, t.map lc = subjectTok → normalizePlaceholders t = subjectTok) := by
  have hsubj : ∀ t rest : List Char, t.map lc = subjPat →
      normalizePlaceholders (t ++ rest) = subjectTok ++ normalizePlaceholders rest := by
    intro t rest h
    have hne : t ≠ [] := by
      intro hn
      rw [hn] at h
      exact absurd h.symm (by decide)
    match t, hne with
    | c :: t', _ =>
      show normalizeAux ((c :: (t' ++ rest)).length) (c :: (t' ++ rest)) = _
      have htry := tryYour_none_subj (c :: t') rest h
      rw [List.cons_append] at htry
      rw [List.length_cons, normalizeAux_cons, htry]
      rw [show ciStrip subjPat (c :: (t' ++ rest)) = some rest from by
        have := ciStrip_intro subjPat (c :: t') rest (by rw [h, lc_subjPat])
        simpa using this]
      show subjectTok ++ normalizeAux (t' ++ rest).length rest = _
      rw [normalizeAux_fuel (t' ++ rest).length rest.length rest
        (by simp) (le_refl _)]
      rfl
  have htok : ∀ t rest : List Char, t.map lc = subjectTok →
      normalizePlaceholders (t ++ rest) = subjectTok ++ normalizePlaceholders rest := by
    intro t rest h
    have hne : t ≠ [] := by
      intro hn
      rw [hn] at h
      exact absurd h.symm (by decide)
    match t, hne with
    | c :: t', _ =>
      have hc0 : lc c = '{' := by
        simp only [show subjectTok = '{' :: "subject\x7d".toList from rfl,
          List.map_cons, List.cons.injEq] at h
        exact h.1
      show normalizeAux ((c :: (t' ++ rest)).length) (c :: (t' ++ rest)) = _
      rw [List.length_cons, normalizeAux_cons]
      have h1 : tryYour (c :: (t' ++ rest)) = none := by
        rw [tryYour, show yourPat = '[' :: "your subject".toList from rfl,
          ciStrip_none_head _ _ _ _ (by rw [hc0]; decide)]
      have h2 : ciStrip subjPat (c :: (t' ++ rest)) = none := by
        rw [show subjPat = '[' :: "subject]".toList from rfl]
        exact ciStrip_none_head _ _ _ _ (by rw [hc0]; decide)
      rw [h1, h2]
      rw [show ciStrip subjectTok (c :: (t' ++ rest)) = some rest from by
        have := ciStrip_intro subjectTok (c :: t') rest (by rw [h, lc_subjectTok])
        simpa using this]
      show subjectTok ++ normalizeAux (t' ++ rest).length rest = _
      rw [normalizeAux_fuel (t' ++ rest).length rest.length rest
        (by simp) (le_refl _)]
      rfl
  refine ⟨normalize_your, hsubj, htok, normalize_ctx, ?_, ?_, ?_⟩
  · intro pre mid hpre hmid
    have := normalize_your pre mid [] hpre hmid
    simpa using this
  · intro t ht
    have := hsubj t [] ht
    simpa using this
  · intro t ht
    have := htok t [] ht
    simpa using this

/-- Witness for C5 at the three concrete spellings `[Your Subject here]`,
`[SUBJECT]` and `\x7bSUBJECT\x7d`. -/
theorem C5_placeholder_normalization_witness :
    normalizePlaceholders ("[Your Subject".toList ++ " here".toList ++ [']']) =
      subjectTok ∧
    normalizePlaceholders ("[SUBJECT]".toList) = subjectTok ∧
    normalizePlaceholders ("{SUBJECT}".toList) = subjectTok := by
  refine ⟨?_, ?_, ?_⟩
  · exact C5_placeholder_normalization.2.2.2.2.1 ("[Your Subject".toList)
      (" here".toList) (by decide) (by decide)
  · exact C5_placeholder_normalization.2.2.2.2.2.1 ("[SUBJECT]".toList) (by decide)
  · exact C5_placeholder_normalization.2.2.2.2.2.2 ("{SUBJECT}".toList) (by decide)

/-! ## Lemmas relating the operational extractor to the declarative
reading of the template regex, and claim C4 -/

theorem pyWS_mem (c : Char) (h : pyWS c = true) : c ∈ wsList :=
  of_decide_eq_true h

theorem ws_lc_self (c : Char) (h : pyWS c = true) : lc c = c := by
  have hall : ∀ x ∈ wsList, lc x = x := by decide
  exact hall c (pyWS_mem c h)

theorem pyWS_ne_hash (c : Char) (h : pyWS c = true) : c ≠ '#' := by
  have hall : ∀ x ∈ wsList, x ≠ '#' := by decide
  exact hall c (pyWS_mem c h)

theorem pyWS_false_of_lc (c x : Char) (hx : lc c = x) (hxws : pyWS x = false) :
    pyWS c = false := by
  by_contra h
  have hws : pyWS c = true := by simpa using h
  rw [ws_lc_self c hws] at hx
  rw [hx] at hws
  rw [hws] at hxws
  exact absurd hxws (by simp)

theorem ne_hash_of_lc (c x : Char) (hx : lc c = x) (hxh : x ≠ '#') : c ≠ '#' := by
  intro hc
  subst hc
  exact hxh (hx.symm.trans (show lc '#' = '#' from by decide))

theorem map_lc_head {t : List Char} {p0 : Char} {ps : List Char}
    (h : t.map lc = p0 :: ps) :
    ∃ c t', t = c :: t' ∧ lc c = p0 ∧ t'.map lc = ps := by
  match t with
  | [] => exact absurd h (by simp)
  | c :: t' =>
    simp only [List.map_cons, List.cons.injEq] at h
    exact ⟨c, t', rfl, h.1, h.2⟩

theorem lc_templatePat : templatePat.map lc = templatePat := by decide

theorem lc_promptPat : promptPat.map lc = promptPat := by decide

theorem matchHeaderTail_complete (gap popt tmpl rest : List Char)
    (hgap : WSRun gap) (hpopt : PromptOptP popt) (htmpl : tmpl.map lc = templatePat) :
    matchHeaderTail (gap ++ (popt ++ (tmpl ++ rest))) = some rest := by
  obtain ⟨t0, tmpl', rfl, ht0, -⟩ := map_lc_head
    (show tmpl.map lc = 't' :: "emplate".toList from htmpl)
  have ht0ws : pyWS t0 = false := pyWS_false_of_lc t0 't' ht0 (by decide)
  have htstrip : ciStrip templatePat ((t0 :: tmpl') ++ rest) = some rest :=
    ciStrip_intro templatePat (t0 :: tmpl') rest (by rw [htmpl, lc_templatePat])
  rcases hpopt with rfl | ⟨pw, gap2, rfl, hpw, hgap2⟩
  · have hdrop : dropWSL (gap ++ ([] ++ ((t0 :: tmpl') ++ rest))) =
        (t0 :: tmpl') ++ rest := by
      rw [dropWSL, List.nil_append,
        List.dropWhile_append_of_pos (fun a ha => hgap a ha), List.cons_append,
        List.dropWhile_cons_of_neg (by simp [ht0ws])]
    have hnone : ciStrip promptPat ((t0 :: tmpl') ++ rest) = none := by
      rw [show promptPat = 'p' :: "rompt".toList from rfl, List.cons_append]
      exact ciStrip_none_head 'p' t0 _ _ (by rw [ht0]; decide)
    rw [matchHeaderTail, hdrop, hnone]
    exact htstrip
  · obtain ⟨q0, pw', rfl, hq0, -⟩ := map_lc_head
      (show pw.map lc = 'p' :: "rompt".toList from hpw)
    have hq0ws : pyWS q0 = false := pyWS_false_of_lc q0 'p' hq0 (by decide)
    have harg : ((q0 :: pw') ++ gap2) ++ ((t0 :: tmpl') ++ rest) =
        q0 :: (pw' ++ (gap2 ++ ((t0 :: tmpl') ++ rest))) := by
      simp [List.append_assoc]
    have hdrop : dropWSL (gap ++ (((q0 :: pw') ++ gap2) ++ ((t0 :: tmpl') ++ rest))) =
        (q0 :: pw') ++ (gap2 ++ ((t0 :: tmpl') ++ rest)) := by
      rw [dropWSL, List.dropWhile_append_of_pos (fun a ha => hgap a ha), harg,
        List.dropWhile_cons_of_neg (by simp [hq0ws])]
      exact (List.cons_append _ _ _).symm
    have hpstrip : ciStrip promptPat ((q0 :: pw') ++ (gap2 ++ ((t0 :: tmpl') ++ rest))) =
        some (gap2 ++ ((t0 :: tmpl') ++ rest)) :=
      ciStrip_intro promptPat (q0 :: pw') _ (by rw [hpw, lc_promptPat])
    have hdrop2 : dropWSL (gap2 ++ ((t0 :: tmpl') ++ rest)) = (t0 :: tmpl') ++ rest := by
      rw [dropWSL, List.dropWhile_append_of_pos (fun a ha => hgap2 a ha),
        List.cons_append, List.dropWhile_cons_of_neg (by simp [ht0ws])]
    rw [matchHeaderTail, hdrop, hpstrip]
    show ciStrip templatePat (dropWSL (gap2 ++ ((t0 :: tmpl') ++ rest))) = some rest
    rw [hdrop2]
    exact htstrip

theorem matchHeaderTail_sound (s rest : List Char)
    (h : matchHeaderTail s = some rest) :
    ∃ gap popt tmpl, WSRun gap ∧ PromptOptP popt ∧ tmpl.map lc = templatePat ∧
      s = gap ++ (popt ++ (tmpl ++ rest)) := by
  rw [matchHeaderTail] at h
  have hsplit : s.takeWhile pyWS ++ dropWSL s = s :=
    List.takeWhile_append_dropWhile pyWS s
  have hgap : WSRun (s.takeWhile pyWS) := fun c hc => List.mem_takeWhile_imp hc
  rcases hp : ciStrip promptPat (dropWSL s) with _ | r <;> rw [hp] at h
  · obtain ⟨tmpl, htmpl_eq, htmpl_map⟩ := ciStrip_sound _ _ _ h
    refine ⟨s.takeWhile pyWS, [], tmpl, hgap, Or.inl rfl, ?_, ?_⟩
    · rw [htmpl_map, lc_templatePat]
    · rw [List.nil_append, ← htmpl_eq]
      · rw [show dropWSL s = (dropWSL s).takeWhile pyWS ++ dropWSL (dropWSL s) from
          (List.takeWhile_append_dropWhile pyWS (dropWSL s)).symm] at htmpl_eq
        exact hsplit.symm
  · obtain ⟨pw, hpw_eq, hpw_map⟩ := ciStrip_sound _ _ _ hp
    obtain ⟨tmpl, htmpl_eq, htmpl_map⟩ := ciStrip_sound _ _ _ h
    refine ⟨s.takeWhile pyWS, pw ++ r.takeWhile pyWS, tmpl, hgap,
      Or.inr ⟨pw, r.takeWhile pyWS, rfl, by rw [hpw_map, lc_promptPat],
        fun c hc => List.mem_takeWhile_imp hc⟩, by rw [htmpl_map, lc_templatePat], ?_⟩
    have hr : r = r.takeWhile pyWS ++ (tmpl ++ rest) := by
      rw [← htmpl_eq]
      exact (List.takeWhile_append_dropWhile pyWS r).symm
    calc s = s.takeWhile pyWS ++ dropWSL s := hsplit.symm
      _ = s.takeWhile pyWS ++ (pw ++ r) := by rw [hpw_eq]
      _ = s.takeWhile pyWS ++ (pw ++ (r.takeWhile pyWS ++ (tmpl ++ rest))) := by
            rw [← hr]
      _ = s.takeWhile pyWS ++ ((pw ++ r.takeWhile pyWS) ++ (tmpl ++ rest)) := by
            rw [List.append_assoc]

theorem matchHeaderAt_nil : matchHeaderAt [] = none := rfl

theorem matchHeaderAt_cons (c : Char) (rest : List Char) :
    matchHeaderAt (c :: rest) =
      (if c = '#' then
        matchHeaderTail
          (match rest with
            | c2 :: r2 => if c2 = '#' then r2 else rest
            | [] => rest)
      else none) := rfl

theorem matchHeaderAt_complete (hh rest : List Char) (h : HeaderShape hh) :
    matchHeaderAt (hh ++ rest) = some rest := by
  obtain ⟨marks, gap, popt, tmpl, hmarks, hgap, hpopt, htmpl, rfl⟩ := h
  have htail := matchHeaderTail_complete gap popt tmpl rest hgap hpopt htmpl
  have hhead : ∀ c2 r2, gap ++ (popt ++ (tmpl ++ rest)) = c2 :: r2 → c2 ≠ '#' := by
    intro c2 r2 heq
    match gap, heq with
    | g :: gs, heq =>
      have : g = c2 := by simpa using congrArg (List.head? ·) heq
      exact this ▸ pyWS_ne_hash g (hgap g (List.mem_cons_self _ _))
    | [], heq =>
      rw [List.nil_append] at heq
      rcases hpopt with rfl | ⟨pw, gap2, rfl, hpw, -⟩
      · rw [List.nil_append] at heq
        obtain ⟨t0, tmpl', rfl, ht0, -⟩ := map_lc_head
          (show tmpl.map lc = 't' :: "emplate".toList from htmpl)
        have : t0 = c2 := by simpa using congrArg (List.head? ·) heq
        exact this ▸ ne_hash_of_lc t0 't' ht0 (by decide)
      · obtain ⟨q0, pw', rfl, hq0, -⟩ := map_lc_head
          (show pw.map lc = 'p' :: "rompt".toList from hpw)
        have : q0 = c2 := by simpa using congrArg (List.head? ·) heq
        exact this ▸ ne_hash_of_lc q0 'p' hq0 (by decide)
  have hYne : gap ++ (popt ++ (tmpl ++ rest)) ≠ [] := by
    obtain ⟨t0, tmpl', rfl, -, -⟩ := map_lc_head
      (show tmpl.map lc = 't' :: "emplate".toList from htmpl)
    intro hcontra
    rcases List.append_eq_nil.mp hcontra with ⟨-, h2⟩
    rcases List.append_eq_nil.mp h2 with ⟨-, h3⟩
    exact absurd h3 (by simp)
  rcases hmarks with rfl | rfl
  · rw [show (['#'] ++ gap ++ popt ++ tmpl) ++ rest =
      '#' :: (gap ++ (popt ++ (tmpl ++ rest))) from by simp [List.append_assoc]]
    rw [matchHeaderAt_cons, if_pos rfl]
    rcases hY : gap ++ (popt ++ (tmpl ++ rest)) with _ | ⟨c2, r2⟩
    · exact absurd hY hYne
    · rw [hY] at htail
      show matchHeaderTail (if c2 = '#' then r2 else c2 :: r2) = some rest
      rw [if_neg (hhead c2 r2 hY)]
      exact htail
  · rw [show (['#', '#'] ++ gap ++ popt ++ tmpl) ++ rest =
      '#' :: '#' :: (gap ++ (popt ++ (tmpl ++ rest))) from by simp [List.append_assoc]]
    rw [matchHeaderAt_cons, if_pos rfl]
    show matchHeaderTail (if '#' = '#' then gap ++ (popt ++ (tmpl ++ rest))
      else '#' :: (gap ++ (popt ++ (tmpl ++ rest)))) = some rest
    rw [if_pos rfl]
    exact htail

theorem matchHeaderAt_sound (s rest : List Char) (h : matchHeaderAt s = some rest) :
    ∃ hh, s = hh ++ rest ∧ HeaderShape hh := by
  match s with
  | [] => exact absurd h (by rw [matchHeaderAt_nil]; simp)
  | c :: rest0 =>
    rw [matchHeaderAt_cons] at h
    by_cases hc : c = '#'
    · rw [if_pos hc] at h
      subst hc
      rcases rest0 with _ | ⟨c2, r2⟩
      · have h' : matchHeaderTail [] = some rest := h
        obtain ⟨gap, popt, tmpl, hgap, hpopt, htmpl, heq⟩ :=
          matchHeaderTail_sound _ _ h'
        refine ⟨['#'] ++ gap ++ popt ++ tmpl, ?_,
          ⟨['#'], gap, popt, tmpl, Or.inl rfl, hgap, hpopt, htmpl, rfl⟩⟩
        rw [show (['#'] ++ gap ++ popt ++ tmpl) ++ rest =
          '#' :: (gap ++ (popt ++ (tmpl ++ rest))) from by simp [List.append_assoc],
          ← heq]
      · by_cases hc2 : c2 = '#'
        · subst hc2
          have h' : matchHeaderTail r2 = some rest := by
            have h'' : matchHeaderTail (if ('#' : Char) = '#' then r2
              else '#' :: r2) = some rest := h
            rwa [if_pos rfl] at h''
          obtain ⟨gap, popt, tmpl, hgap, hpopt, htmpl, heq⟩ :=
            matchHeaderTail_sound _ _ h'
          refine ⟨['#', '#'] ++ gap ++ popt ++ tmpl, ?_,
            ⟨['#', '#'], gap, popt, tmpl, Or.inr rfl, hgap, hpopt, htmpl, rfl⟩⟩
          rw [show (['#', '#'] ++ gap ++ popt ++ tmpl) ++ rest =
            '#' :: '#' :: (gap ++ (popt ++ (tmpl ++ rest))) from by
              simp [List.append_assoc], ← heq]
        · have h' : matchHeaderTail (c2 :: r2) = some rest := by
            have h'' : matchHeaderTail (if c2 = '#' then r2
              else c2 :: r2) = some rest := h
            rwa [if_neg hc2] at h''
          obtain ⟨gap, popt, tmpl, hgap, hpopt, htmpl, heq⟩ :=
            matchHeaderTail_sound _ _ h'
          refine ⟨['#'] ++ gap ++ popt ++ tmpl, ?_,
            ⟨['#'], gap, popt, tmpl, Or.inl rfl, hgap, hpopt, htmpl, rfl⟩⟩
          rw [show (['#'] ++ gap ++ popt ++ tmpl) ++ rest =
            '#' :: (gap ++ (popt ++ (tmpl ++ rest))) from by simp [List.append_assoc],
            ← heq]
    · rw [if_neg hc] at h
      exact absurd h (by simp)

theorem afterLine_complete (x body : List Char) (h : NoNL x) :
    afterLine (x ++ '\n' :: body) = some body := by
  rw [afterLine, List.dropWhile_append_of_pos (by
    intro a ha
    simp only [Bool.not_eq_true', decide_eq_false_iff_not]
    exact fun hEq => h (hEq ▸ ha)), List.dropWhile_cons_of_neg (by simp)]

theorem afterLine_sound (s r : List Char) (h : afterLine s = some r) :
    ∃ x, s = x ++ '\n' :: r ∧ NoNL x := by
  rw [afterLine] at h
  rcases hd : s.dropWhile (fun c => !(c = '\n')) with _ | ⟨d, r0⟩ <;> rw [hd] at h
  · exact absurd h (by simp)
  · have hr : r0 = r := by simpa using h
    have hq := List.head?_dropWhile_not (fun c => !(c = '\n')) s
    rw [hd] at hq
    simp only [List.head?_cons] at hq
    have hdnl : d = '\n' := by simpa using hq
    have hsplit := (List.takeWhile_append_dropWhile (fun c => !(c = '\n')) s).symm
    rw [hd, hdnl, hr] at hsplit
    exact ⟨s.takeWhile (fun c => !(c = '\n')), hsplit, fun hmem => by
      simpa using List.mem_takeWhile_imp hmem⟩

theorem findFenceAux_eq (b : Bool) (s : List Char) :
    findFenceAux b s =
      (if b && fencePat.isPrefixOf s then some s
       else
        match s with
        | [] => none
        | c :: r => findFenceAux (c = '\n') r) := by
  rw [findFenceAux.eq_def]

theorem findFenceAux_complete : ∀ (a : List Char) (b : Bool) (R : List Char),
    ((a = [] ∧ b = true) ∨ ∃ a', a = a' ++ ['\n']) →
    ∃ X, findFenceAux b (a ++ (fencePat ++ R)) = some (fencePat ++ (X ++ R)) := by
  intro a
  induction a with
  | nil =>
    intro b R hcond
    have hb : b = true := by
      rcases hcond with ⟨-, hb⟩ | ⟨a', ha'⟩
      · exact hb
      · exact absurd ha'.symm (by simp)
    subst hb
    refine ⟨[], ?_⟩
    rw [List.nil_append, findFenceAux_eq, if_pos (by
      simp [List.isPrefixOf_iff_prefix, List.prefix_append])]
    rw [List.nil_append]
  | cons c a' ih =>
    intro b R hcond
    by_cases hb : (b && fencePat.isPrefixOf ((c :: a') ++ (fencePat ++ R))) = true
    · have hpre : fencePat <+: ((c :: a') ++ (fencePat ++ R)) := by
        have hb' := hb
        simp only [Bool.and_eq_true, List.isPrefixOf_iff_prefix] at hb'
        exact hb'.2
      obtain ⟨w, hw⟩ := hpre
      have hw_suf : w <:+ ((c :: a') ++ (fencePat ++ R)) := ⟨fencePat, hw⟩
      have hR_suf : R <:+ ((c :: a') ++ (fencePat ++ R)) :=
        ⟨(c :: a') ++ fencePat, by simp [List.append_assoc]⟩
      have hlen : R.length ≤ w.length := by
        have := congrArg List.length hw
        simp only [List.length_append, List.length_cons,
          show fencePat.length = 3 from by decide] at this
        omega
      have hRw : R <:+ w := by
        rw [← List.reverse_prefix] at hw_suf hR_suf ⊢
        exact List.prefix_of_prefix_length_le hR_suf hw_suf (by simpa using hlen)
      obtain ⟨X, hX⟩ := hRw
      refine ⟨X, ?_⟩
      rw [findFenceAux_eq, if_pos hb, ← hw, hX]
    · have hcond' : (a' = [] ∧ ((c = '\n') : Bool) = true) ∨ ∃ a'', a' = a'' ++ ['\n'] := by
        rcases hcond with ⟨habs, -⟩ | ⟨a'', ha''⟩
        · exact absurd habs (by simp)
        · rcases a'' with _ | ⟨d, a3⟩
          · have h1 : c = '\n' ∧ a' = [] := by
              constructor
              · simpa using congrArg (List.head? ·) ha''
              · simpa using congrArg (List.tail ·) ha''
            exact Or.inl ⟨h1.2, by simp [h1.1]⟩
          · simp only [List.cons_append, List.cons.injEq] at ha''
            exact Or.inr ⟨a3, ha''.2⟩
      obtain ⟨X, hX⟩ := ih (c = '\n') R hcond'
      refine ⟨X, ?_⟩
      rw [findFenceAux_eq, if_neg hb]
      exact hX

theorem findFenceAux_sound : ∀ (s : List Char) (b : Bool) (u : List Char),
    findFenceAux b s = some u →
    ∃ a, s = a ++ u ∧ fencePat <+: u ∧
      ((a = [] ∧ b = true) ∨ ∃ a', a = a' ++ ['\n']) := by
  intro s
  induction s with
  | nil =>
    intro b u h
    have hnone : findFenceAux b [] = none := by cases b <;> rfl
    rw [hnone] at h
    exact absurd h (by simp)
  | cons c r ih =>
    intro b u h
    rw [findFenceAux_eq] at h
    by_cases hb : (b && fencePat.isPrefixOf (c :: r)) = true
    · rw [if_pos hb] at h
      have hu : u = c :: r := by simpa using h.symm
      have hb' := hb
      simp only [Bool.and_eq_true, List.isPrefixOf_iff_prefix] at hb'
      exact ⟨[], by simp [hu], hu ▸ hb'.2, Or.inl ⟨rfl, hb'.1⟩⟩
    · rw [if_neg hb] at h
      have h' : findFenceAux (c = '\n') r = some u := h
      obtain ⟨a, ha, hpre, hcond⟩ := ih _ _ h'
      rcases hcond with ⟨ha0, hb2⟩ | ⟨a', ha'⟩
      · subst ha0
        have hc : c = '\n' := by simpa using hb2
        exact ⟨[c], by simp [ha], hpre, Or.inr ⟨[], by simp [hc]⟩⟩
      · subst ha'
        exact ⟨c :: (a' ++ ['\n']), by simp [ha], hpre, Or.inr ⟨c :: a', by simp⟩⟩

theorem scanToTriple_eq (s : List Char) :
    scanToTriple s =
      (if fencePat.isPrefixOf s then some []
       else
        match s with
        | [] => none
        | c :: r => (scanToTriple r).map (fun t => c :: t)) := by
  rw [scanToTriple.eq_def]

theorem scanToTriple_complete : ∀ s : List Char, fencePat <:+: s →
    ∃ t, scanToTriple s = some t := by
  intro s
  induction s with
  | nil =>
    intro h
    exact absurd (List.infix_nil.mp h) (by decide)
  | cons c r ih =>
    intro h
    by_cases hp : fencePat.isPrefixOf (c :: r) = true
    · exact ⟨[], by rw [scanToTriple_eq, if_pos hp]⟩
    · have hinf : fencePat <:+: r := by
        rcases List.infix_cons_iff.mp h with hpre | hinf
        · exact absurd hpre (by simpa [List.isPrefixOf_iff_prefix] using hp)
        · exact hinf
      obtain ⟨t, ht⟩ := ih hinf
      refine ⟨c :: t, ?_⟩
      rw [scanToTriple_eq, if_neg hp]
      show (scanToTriple r).map (fun t => c :: t) = some (c :: t)
      rw [ht]
      rfl

theorem scanToTriple_sound : ∀ s t : List Char, scanToTriple s = some t →
    ∃ tail, s = t ++ (fencePat ++ tail) := by
  intro s
  induction s with
  | nil =>
    intro t h
    rw [scanToTriple_eq, if_neg (by decide)] at h
    exact absurd h (by simp)
  | cons c r ih =>
    intro t h
    rw [scanToTriple_eq] at h
    by_cases hp : fencePat.isPrefixOf (c :: r) = true
    · rw [if_pos hp] at h
      have ht : t = [] := by simpa using h.symm
      obtain ⟨w, hw⟩ := List.isPrefixOf_iff_prefix.mp hp
      exact ⟨w, by rw [ht, List.nil_append, ← hw]⟩
    · rw [if_neg hp] at h
      have h' : (scanToTriple r).map (fun t => c :: t) = some t := h
      rcases hs : scanToTriple r with _ | t' <;> rw [hs] at h'
      · exact absurd h' (by simp)
      · have ht : t = c :: t' := by simpa using h'.symm
        obtain ⟨tail, htail⟩ := ih t' hs
        exact ⟨tail, by rw [ht, htail]; rfl⟩

theorem first_nl_split : ∀ (x P M w : List Char), NoNL x →
    P ++ '\n' :: M = x ++ '\n' :: w → ∃ v, w = v ++ M := by
  intro x
  induction x with
  | nil =>
    intro P M w hx heq
    match P with
    | [] =>
      have : M = w := by simpa using heq
      exact ⟨[], by simp [this]⟩
    | p :: P' =>
      simp only [List.cons_append, List.nil_append, List.cons.injEq] at heq
      exact ⟨P' ++ ['\n'], by simp [← heq.2, List.append_assoc]⟩
  | cons c x' ih =>
    intro P M w hx heq
    match P with
    | [] =>
      simp only [List.nil_append, List.cons_append, List.cons.injEq] at heq
      exact absurd (by rw [← heq.1]; exact List.mem_cons_self _ _ : '\n' ∈ c :: x') hx
    | p :: P' =>
      simp only [List.cons_append, List.cons.injEq] at heq
      exact ih P' M w (fun hmem => hx (List.mem_cons_of_mem _ hmem)) heq.2

theorem lineStart_shift (c : Char) (a1t : List Char)
    (h : ∃ a1x, c :: a1t = a1x ++ ['\n']) :
    (a1t = [] ∧ ((c = '\n') : Bool) = true) ∨ ∃ a1x, a1t = a1x ++ ['\n'] := by
  obtain ⟨a1x, hx⟩ := h
  rcases a1x with _ | ⟨d, a1x2⟩
  · have h1 : c = '\n' ∧ a1t = [] := by
      constructor
      · simpa using congrArg (List.head? ·) hx
      · simpa using congrArg (List.tail ·) hx
    exact Or.inl ⟨h1.2, by simp [h1.1]⟩
  · simp only [List.cons_append, List.cons.injEq] at hx
    exact Or.inr ⟨a1x2, hx.2⟩

theorem findFenceAux_min : ∀ (s : List Char) (b : Bool) (u : List Char),
    findFenceAux b s = some u →
    ∀ a1 v, s = a1 ++ v → u.length < v.length →
      ((a1 = [] ∧ b = true) ∨ ∃ a1x, a1 = a1x ++ ['\n']) →
      ¬ fencePat <+: v := by
  intro s
  induction s with
  | nil =>
    intro b u h
    have hnone : findFenceAux b [] = none := by cases b <;> rfl
    rw [hnone] at h
    exact absurd h (by simp)
  | cons c r ih =>
    intro b u h a1 v hs hlen hstart hpre
    rw [findFenceAux_eq] at h
    by_cases hb : (b && fencePat.isPrefixOf (c :: r)) = true
    · rw [if_pos hb] at h
      have hu : u = c :: r := by simpa using h.symm
      have hlens := congrArg List.length hs
      simp only [List.length_cons, List.length_append] at hlens
      rw [hu] at hlen
      simp only [List.length_cons] at hlen
      omega
    · rw [if_neg hb] at h
      have h' : findFenceAux (c = '\n') r = some u := h
      rcases hstart with ⟨ha1, hbt⟩ | hnl
      · subst ha1
        have hv : v = c :: r := by simpa using hs.symm
        rw [hbt, Bool.true_and] at hb
        rw [hv] at hpre
        exact hb (List.isPrefixOf_iff_prefix.mpr hpre)
      · rcases a1 with _ | ⟨c1, a1t⟩
        · obtain ⟨a1x, hx⟩ := hnl
          exact absurd hx.symm (by simp)
        · simp only [List.cons_append, List.cons.injEq] at hs
          obtain ⟨hc1, hr⟩ := hs
          subst hc1
          exact ih (c = '\n') u h' a1t v hr hlen (lineStart_shift c a1t hnl) hpre

theorem scanToTriple_min : ∀ (s t : List Char), scanToTriple s = some t →
    ∀ t1 v, s = t1 ++ v → t1.length < t.length → ¬ fencePat <+: v := by
  intro s
  induction s with
  | nil =>
    intro t h
    rw [scanToTriple_eq, if_neg (by decide)] at h
    exact absurd h (by simp)
  | cons c r ih =>
    intro t h t1 v hs hlen hpre
    rw [scanToTriple_eq] at h
    by_cases hp : fencePat.isPrefixOf (c :: r) = true
    · rw [if_pos hp] at h
      have ht : t = [] := by simpa using h.symm
      rw [ht] at hlen
      simp at hlen
    · rw [if_neg hp] at h
      have h' : (scanToTriple r).map (fun x => c :: x) = some t := h
      rcases hs2 : scanToTriple r with _ | t2 <;> rw [hs2] at h'
      · exact absurd h' (by simp)
      · have ht : t = c :: t2 := by simpa using h'.symm
        rcases t1 with _ | ⟨c1, t1t⟩
        · have hv : v = c :: r := by simpa using hs.symm
          rw [hv] at hpre
          exact hp (List.isPrefixOf_iff_prefix.mpr hpre)
        · simp only [List.cons_append, List.cons.injEq] at hs
          obtain ⟨hc1, hr⟩ := hs
          rw [ht] at hlen
          simp only [List.length_cons] at hlen
          exact ih t2 hs2 t1t v hr (by omega) hpre

theorem afterLine_some_of_mem (s : List Char) (h : '\n' ∈ s) :
    ∃ r, afterLine s = some r := by
  rw [afterLine]
  rcases hd : s.dropWhile (fun c => !(c = '\n')) with _ | ⟨d, r0⟩
  · have hall := List.dropWhile_eq_nil_iff.mp hd
    simpa using hall '\n' h
  · exact ⟨r0, rfl⟩

theorem matchAt_complete (s : List Char) (h : MatchShape s) :
    ∃ g, matchAt s = some g := by
  obtain ⟨hh, rest, inner, rfl, hH, hRT⟩ := h
  obtain ⟨lineRest, body, lead, flr, tail, hnl1, hlead, hnl2, hrest, hbody⟩ := hRT
  have h1 : matchHeaderAt (hh ++ rest) = some rest := matchHeaderAt_complete hh rest hH
  have h2 : afterLine rest = some body := by
    rw [hrest]; exact afterLine_complete lineRest body hnl1
  have hbody' : body = lead ++ (fencePat ++ (flr ++ '\n' :: (inner ++ fencePat ++ tail))) := by
    rw [hbody]; simp [List.append_assoc]
  have hcond : (lead = [] ∧ (true : Bool) = true) ∨ ∃ l', lead = l' ++ ['\n'] := by
    rcases hlead with h0 | h0
    · exact Or.inl ⟨h0, rfl⟩
    · exact Or.inr h0
  obtain ⟨X1, h3⟩ :=
    findFenceAux_complete lead true (flr ++ '\n' :: (inner ++ fencePat ++ tail)) hcond
  have h3' : findFenceAux true body
      = some (fencePat ++ (X1 ++ (flr ++ '\n' :: (inner ++ fencePat ++ tail)))) := by
    rw [hbody']; exact h3
  have hdropEq : (fencePat ++ (X1 ++ (flr ++ '\n' :: (inner ++ fencePat ++ tail)))).drop 3
      = X1 ++ (flr ++ '\n' :: (inner ++ fencePat ++ tail)) :=
    List.drop_left' (by decide)
  have hmem : '\n' ∈ X1 ++ (flr ++ '\n' :: (inner ++ fencePat ++ tail)) := by simp
  obtain ⟨r4, h4⟩ := afterLine_some_of_mem _ hmem
  obtain ⟨x, hxnl, hxY⟩ : ∃ x, X1 ++ (flr ++ '\n' :: (inner ++ fencePat ++ tail))
      = x ++ '\n' :: r4 ∧ NoNL x := afterLine_sound _ _ h4
  have hYP : (X1 ++ flr) ++ '\n' :: (inner ++ fencePat ++ tail) = x ++ '\n' :: r4 := by
    rw [← hxnl]; simp [List.append_assoc]
  obtain ⟨v, hv⟩ := first_nl_split x (X1 ++ flr) (inner ++ fencePat ++ tail) r4 hxY hYP
  have hinf : fencePat <:+: r4 := by
    exact ⟨v ++ inner, tail, by rw [hv]; simp [List.append_assoc]⟩
  obtain ⟨t, h5⟩ := scanToTriple_complete r4 hinf
  refine ⟨t, ?_⟩
  simp only [matchAt, h1, h2, h3', hdropEq, h4]
  exact h5

theorem matchAt_sound (s g : List Char) (h : matchAt s = some g) :
    ∃ hh rest, s = hh ++ rest ∧ HeaderShape hh ∧ RegexTail rest g := by
  simp only [matchAt] at h
  rcases h1 : matchHeaderAt s with _ | r1 <;> rw [h1] at h
  · exact Option.noConfusion (show (none : Option (List Char)) = some g from h)
  have h' : (match afterLine r1 with
    | none => none
    | some r2 =>
      match findFenceAux true r2 with
      | none => none
      | some r3 =>
        match afterLine (r3.drop 3) with
        | none => none
        | some r4 => scanToTriple r4) = some g := h
  rcases h2 : afterLine r1 with _ | r2 <;> rw [h2] at h'
  · exact Option.noConfusion (show (none : Option (List Char)) = some g from h')
  have h'' : (match findFenceAux true r2 with
    | none => none
    | some r3 =>
      match afterLine (r3.drop 3) with
      | none => none
      | some r4 => scanToTriple r4) = some g := h'
  rcases h3 : findFenceAux true r2 with _ | r3 <;> rw [h3] at h''
  · exact Option.noConfusion (show (none : Option (List Char)) = some g from h'')
  have h3c : (match afterLine (r3.drop 3) with
    | none => none
    | some r4 => scanToTriple r4) = some g := h''
  rcases h4 : afterLine (r3.drop 3) with _ | r4 <;> rw [h4] at h3c
  · exact Option.noConfusion (show (none : Option (List Char)) = some g from h3c)
  have h5 : scanToTriple r4 = some g := h3c
  obtain ⟨hh, hs, hH⟩ := matchHeaderAt_sound s r1 h1
  obtain ⟨x1, hx1, hx1nl⟩ := afterLine_sound r1 r2 h2
  obtain ⟨a, ha, hpreFence, hcond⟩ := findFenceAux_sound r2 true r3 h3
  obtain ⟨w, hw⟩ := hpreFence
  have hdropEq : r3.drop 3 = w := by rw [← hw]; exact List.drop_left' (by decide)
  rw [hdropEq] at h4
  obtain ⟨flr0, hflr, hflrnl⟩ := afterLine_sound w r4 h4
  obtain ⟨tail0, htail0⟩ := scanToTriple_sound r4 g h5
  refine ⟨hh, r1, hs, hH, x1, r2, a, flr0, tail0, hx1nl, ?_, hflrnl, hx1, ?_⟩
  · rcases hcond with ⟨h0, -⟩ | h0
    · exact Or.inl h0
    · exact Or.inr h0
  · rw [ha, ← hw, hflr, htail0]
    simp [List.append_assoc]

theorem matchAt_sound_first (s g : List Char) (h : matchAt s = some g) :
    ∃ hh rest, s = hh ++ rest ∧ HeaderShape hh ∧ FirstRegexTail rest g := by
  simp only [matchAt] at h
  rcases h1 : matchHeaderAt s with _ | r1 <;> rw [h1] at h
  · exact Option.noConfusion (show (none : Option (List Char)) = some g from h)
  have h' : (match afterLine r1 with
    | none => none
    | some r2 =>
      match findFenceAux true r2 with
      | none => none
      | some r3 =>
        match afterLine (r3.drop 3) with
        | none => none
        | some r4 => scanToTriple r4) = some g := h
  rcases h2 : afterLine r1 with _ | r2 <;> rw [h2] at h'
  · exact Option.noConfusion (show (none : Option (List Char)) = some g from h')
  have h'' : (match findFenceAux true r2 with
    | none => none
    | some r3 =>
      match afterLine (r3.drop 3) with
      | none => none
      | some r4 => scanToTriple r4) = some g := h'
  rcases h3 : findFenceAux true r2 with _ | r3 <;> rw [h3] at h''
  · exact Option.noConfusion (show (none : Option (List Char)) = some g from h'')
  have h3c : (match afterLine (r3.drop 3) with
    | none => none
    | some r4 => scanToTriple r4) = some g := h''
  rcases h4 : afterLine (r3.drop 3) with _ | r4 <;> rw [h4] at h3c
  · exact Option.noConfusion (show (none : Option (List Char)) = some g from h3c)
  have h5 : scanToTriple r4 = some g := h3c
  obtain ⟨hh, hs, hH⟩ := matchHeaderAt_sound s r1 h1
  obtain ⟨x1, hx1, hx1nl⟩ := afterLine_sound r1 r2 h2
  obtain ⟨a, ha, hpreFence, hcond⟩ := findFenceAux_sound r2 true r3 h3
  obtain ⟨w, hw⟩ := hpreFence
  have hdropEq : r3.drop 3 = w := by rw [← hw]; exact List.drop_left' (by decide)
  rw [hdropEq] at h4
  obtain ⟨flr0, hflr, hflrnl⟩ := afterLine_sound w r4 h4
  obtain ⟨tail0, htail0⟩ := scanToTriple_sound r4 g h5
  have hr3 : r3 = fencePat ++ (flr0 ++ '\n' :: (g ++ fencePat ++ tail0)) := by
    rw [← hw, hflr, htail0]
    simp [List.append_assoc]
  refine ⟨hh, r1, hs, hH, x1, r2, a, flr0, tail0, hx1nl, ?_, hflrnl, hx1, ?_, ?_, ?_⟩
  · rcases hcond with ⟨h0, -⟩ | h0
    · exact Or.inl h0
    · exact Or.inr h0
  · rw [ha, hr3]
    simp [List.append_assoc]
  · intro l1 l2 hll hl2 hl1
    have hr2 : r2 = l1 ++ (l2 ++ r3) := by rw [ha, hll]; simp [List.append_assoc]
    have hlen : r3.length < (l2 ++ r3).length := by
      rw [List.length_append]
      have := List.length_pos.mpr hl2
      omega
    have hcond1 : (l1 = [] ∧ (true : Bool) = true) ∨ ∃ a1x, l1 = a1x ++ ['\n'] := by
      rcases hl1 with h0 | h0
      · exact Or.inl ⟨h0, rfl⟩
      · exact Or.inr h0
    have hmin := findFenceAux_min r2 true r3 h3 l1 (l2 ++ r3) hr2 hlen hcond1
    intro hcontra
    apply hmin
    rw [hr3]
    exact hcontra
  · intro t1 t2 hg ht2
    have hr4 : r4 = t1 ++ (t2 ++ (fencePat ++ tail0)) := by
      rw [htail0, hg]; simp [List.append_assoc]
    have hlen : t1.length < g.length := by
      have := congrArg List.length hg
      simp only [List.length_append] at this
      have := List.length_pos.mpr ht2
      omega
    exact scanToTriple_min r4 g h5 t1 (t2 ++ (fencePat ++ tail0)) hr4 hlen

theorem searchFrom_nil : searchFrom [] = matchAt [] := rfl

theorem searchFrom_cons (c : Char) (r : List Char) :
    searchFrom (c :: r) = (match matchAt (c :: r) with
      | some g => some g
      | none => searchFrom r) := rfl

theorem searchFrom_complete : ∀ (pre s2 : List Char), MatchShape s2 →
    ∃ g, searchFrom (pre ++ s2) = some g := by
  intro pre
  induction pre with
  | nil =>
    intro s2 hM
    obtain ⟨g, hg⟩ := matchAt_complete s2 hM
    refine ⟨g, ?_⟩
    rw [List.nil_append]
    match s2, hg with
    | [], hg => rw [searchFrom_nil]; exact hg
    | c :: r, hg => rw [searchFrom_cons, hg]
  | cons c pre' ih =>
    intro s2 hM
    rcases hm : matchAt (c :: (pre' ++ s2)) with _ | g
    · obtain ⟨g, hg⟩ := ih s2 hM
      refine ⟨g, ?_⟩
      rw [show (c :: pre') ++ s2 = c :: (pre' ++ s2) from rfl, searchFrom_cons, hm]
      exact hg
    · refine ⟨g, ?_⟩
      rw [show (c :: pre') ++ s2 = c :: (pre' ++ s2) from rfl, searchFrom_cons, hm]

theorem searchFrom_sound : ∀ (doc g : List Char), searchFrom doc = some g →
    ∃ pre s2, doc = pre ++ s2 ∧ matchAt s2 = some g := by
  intro doc
  induction doc with
  | nil =>
    intro g h
    rw [show searchFrom ([] : List Char) = none from by decide] at h
    exact Option.noConfusion h
  | cons c r ih =>
    intro g h
    rw [searchFrom_cons] at h
    rcases hm : matchAt (c :: r) with _ | g' <;> rw [hm] at h
    · have h' : searchFrom r = some g := h
      obtain ⟨pre, s2, hps, hmt⟩ := ih g h'
      exact ⟨c :: pre, s2, by rw [hps]; rfl, hmt⟩
    · have hgg : g' = g := by simpa using h
      exact ⟨[], c :: r, by simp, by rw [hm, hgg]⟩

theorem searchFrom_sound_min : ∀ (doc g : List Char), searchFrom doc = some g →
    ∃ pre s2, doc = pre ++ s2 ∧ matchAt s2 = some g ∧
      ∀ p1 p2, pre = p1 ++ p2 → p2 ≠ [] → matchAt (p2 ++ s2) = none := by
  intro doc
  induction doc with
  | nil =>
    intro g h
    rw [show searchFrom ([] : List Char) = none from by decide] at h
    exact Option.noConfusion h
  | cons c r ih =>
    intro g h
    rw [searchFrom_cons] at h
    rcases hm : matchAt (c :: r) with _ | g2 <;> rw [hm] at h
    · have h' : searchFrom r = some g := h
      obtain ⟨pre, s2, hps, hmt, hmin⟩ := ih g h'
      refine ⟨c :: pre, s2, by rw [hps]; rfl, hmt, ?_⟩
      intro p1 p2 hp hne
      rcases p1 with _ | ⟨c1, p1t⟩
      · have hp2 : p2 = c :: pre := by simpa using hp.symm
        rw [hp2, show (c :: pre) ++ s2 = c :: (pre ++ s2) from rfl, ← hps]
        exact hm
      · simp only [List.cons_append, List.cons.injEq] at hp
        exact hmin p1t p2 hp.2 hne
    · have hgg : g2 = g := by simpa using h
      refine ⟨[], c :: r, by simp, by rw [hm, hgg], ?_⟩
      intro p1 p2 hp hne
      have h0 := List.append_eq_nil.mp hp.symm
      exact absurd h0.2 hne

theorem load_unfold (doc : List Char) :
    load_gemini_style_template doc =
      (match searchFrom doc with
       | some g => Except.ok (normalizePlaceholders (pyStrip g))
       | none => Except.error TemplateError.templateNotFound) := rfl

/-- C4 amended: success and failure of the extractor are characterized by the
presence of a header+code-block pair in which the `#`/`##` marker is
mandatory (not optional as claimed): the loader fails with TemplateNotFound
exactly when no such pair exists anywhere in the document, and whenever the
raw extraction stage returns a text, that text is the whitespace-trimmed
inner text of the first such pair's code block: the match starts at the
leftmost position where the whole pattern matches, the block is the first
fence line after the header line, and its body ends at the earliest closing
fence. -/
theorem C4_marker_extraction (doc : List Char) :
    (load_gemini_style_template doc = Except.error TemplateError.templateNotFound
      ↔ ¬ SpecPair doc) ∧
    (∀ t, extractRaw doc = some t →
      ∃ pre hh rest inner, doc = pre ++ (hh ++ rest) ∧ HeaderShape hh ∧
        FirstRegexTail rest inner ∧ t = pyStrip inner ∧
        (∀ p1 p2, pre = p1 ++ p2 → p2 ≠ [] → ¬ MatchShape (p2 ++ (hh ++ rest)))) := by
  constructor
  · constructor
    · intro herr hsp
      obtain ⟨pre, s2, hdoc, hM⟩ := hsp
      obtain ⟨g, hg⟩ := searchFrom_complete pre s2 hM
      rw [← hdoc] at hg
      rw [load_unfold, hg] at herr
      exact Except.noConfusion
        (show (Except.ok (normalizePlaceholders (pyStrip g)) :
          Except TemplateError (List Char)) = Except.error TemplateError.templateNotFound
         from herr)
    · intro hns
      rcases hs : searchFrom doc with _ | g
      · rw [load_unfold, hs]
      · exfalso
        apply hns
        obtain ⟨pre, s2, hps, hmt⟩ := searchFrom_sound doc g hs
        obtain ⟨hh, rest, hsr, hH, hRT⟩ := matchAt_sound s2 g hmt
        exact ⟨pre, s2, hps, hh, rest, g, hsr, hH, hRT⟩
  · intro t ht
    have ht' : (searchFrom doc).map pyStrip = some t := ht
    rcases hs : searchFrom doc with _ | g <;> rw [hs] at ht'
    · exact Option.noConfusion (show (none : Option (List Char)) = some t from by
        simpa using ht')
    · have htg : t = pyStrip g := by simpa using ht'.symm
      obtain ⟨pre, s2, hps, hmt, hmin⟩ := searchFrom_sound_min doc g hs
      obtain ⟨hh, rest, hsr, hH, hRT⟩ := matchAt_sound_first s2 g hmt
      refine ⟨pre, hh, rest, g, by rw [hps, hsr], hH, hRT, htg, ?_⟩
      intro p1 p2 hp hne hMS
      obtain ⟨g2, hg2⟩ := matchAt_complete (p2 ++ (hh ++ rest)) hMS
      have hnone := hmin p1 p2 hp hne
      rw [← hsr] at hg2
      rw [hnone] at hg2
      exact Option.noConfusion hg2

/-- C4 witness: on a concrete document with a `#` marker the extraction stage
returns some text, and the theorem yields the matched decomposition with the
leftmost-match and first-fence properties. -/
theorem C4_marker_extraction_witness :
    ∃ pre hh rest inner,
      "# Template\n```\nX\n```".toList = pre ++ (hh ++ rest) ∧ HeaderShape hh ∧
      FirstRegexTail rest inner ∧ "X".toList = pyStrip inner ∧
      (∀ p1 p2, pre = p1 ++ p2 → p2 ≠ [] →
        ¬ MatchShape (p2 ++ (hh ++ rest))) :=
  (C4_marker_extraction ("# Template\n```\nX\n```".toList)).2 "X".toList (by decide)

/-- C4 is false on the code as stated: the claim makes the `#`/`##` marker
optional, but the regex requires it, so a document whose header line is the
bare word Template followed by a fenced code block — a header+code-block
pair in the claim's marker-optional sense — is rejected with
TemplateNotFound. -/
theorem C4_counterexample :
    SpecPairOpt ("Template\n```\nX\n```\n".toList) ∧
    load_gemini_style_template ("Template\n```\nX\n```\n".toList)
      = Except.error TemplateError.templateNotFound := by
  constructor
  · refine ⟨[], "Template\n```\nX\n```\n".toList, rfl,
      "Template".toList, "\n```\nX\n```\n".toList, "X\n".toList, by decide,
      ⟨[], [], [], "Template".toList, Or.inl rfl, by decide, Or.inl rfl,
        by decide, by decide⟩, ?_⟩
    exact ⟨[], "```\nX\n```\n".toList, [], [], "\n".toList, by decide,
      Or.inl rfl, by decide, by decide, by decide⟩
  · rw [load_unfold,
      show searchFrom ("Template\n```\nX\n```\n".toList) = none from by decide]

end GeminiSkill
